import Mathlib

/-!
# Event store of `core/nuts_db_data_manager.go`

A shallow embedding of the NutsDB-backed data manager: the forward-only
iterator `NutsDBItr`, and the store operations `StoreEvent`, `GetEventById`,
`StoreProfile`, `GetProfileLocal`, `GetLatestEvents`, `StoreFollowList`,
`GetFollowListLocal` and the resend queue.

Conventions.
* Go `int64` / `uint64` / `int` values are `Int` / `Nat`; wrap-around is
  explicit (`uint64OfInt64`, `wrapInt64`).
* Byte slices are lists of naturals below 256.
* A `float64` score is represented by the integer it denotes: every score this
  program produces is `float64(x)` for an integer `x`, the constant `0` or
  `math.MaxFloat64`, all of which are integer-valued doubles.  The conversion
  `float64(x)` rounds to 53 significant bits, ties to even.
* The key-value substrate (ordered map, score-ordered set, list, transactions)
  is an external library; it is modelled by pure functions on lists.
* Functions of the repository whose source file is not part of the development
  (`np2p_util`, `schema`) are modelled from the specification and marked so.
-/

namespace Core

set_option maxRecDepth 30000

/-! ## Machine integers, bytes and scores -/

/-- Byte slices: lists of naturals, each below 256. -/
abbrev Bytes := List Nat

/-- Scores (`float64`), represented by the integer they denote. -/
abbrev Float64 := Int

/-- Go conversion `uint64(x)` of an `int64`: two's complement reinterpretation. -/
def uint64OfInt64 (x : Int) : Nat := (x % 2 ^ 64).toNat

/-- Wrap-around of an integer into the `int64` range, as Go arithmetic does. -/
def wrapInt64 (x : Int) : Int := (x + 2 ^ 63) % 2 ^ 64 - 2 ^ 63

/-- The constant `math.MaxFloat64`, the largest finite double,
`2 ^ 1024 - 2 ^ 971`, written out. -/
def MaxFloat64 : Float64 :=
  179769313486231570814527423731704356798070567525844996598917476803157260780028538760589558632766878171540458953514382464234321326889464182768467546703537516986049910576551282076245490090389328944075868508455133942304583236903222948165808559332123348274797826204144723168738177180919299881250404026184124858368

/-- Rounding of `n` to the nearest multiple of `ulp`, ties going to the even
multiple. -/
def roundHalfEven (n ulp : Nat) : Nat :=
  let q := n / ulp
  let r := n % ulp
  if 2 * r < ulp then q * ulp
  else if ulp < 2 * r then (q + 1) * ulp
  else if q % 2 = 0 then q * ulp else (q + 1) * ulp

/-- Rounding to 53 significant bits: the spacing `ulp` of the doubles doubles
at each power of two from `2 ^ 53` on. -/
def roundBinade : Nat → Nat → Nat → Nat
  | 0, ulp, n => roundHalfEven n ulp
  | fuel + 1, ulp, n =>
    if n < 2 ^ 53 * ulp then roundHalfEven n ulp else roundBinade fuel (2 * ulp) n

/-- Go conversion `float64(x)` of a `uint64` (exact below `2 ^ 53`; eleven
doublings of the spacing cover every value below `2 ^ 64`). -/
def float64OfUint64 (n : Nat) : Float64 := (roundBinade 11 1 n : Nat)

/-- Go conversion `float64(x)` of an `int64`. -/
def float64OfInt64 (x : Int) : Float64 :=
  if 0 ≤ x then (roundBinade 11 1 x.toNat : Nat) else -((roundBinade 11 1 (-x).toNat : Nat) : Int)

/-- Go `binary.BigEndian.PutUint64` into a fresh 8-byte buffer. -/
def BigEndian_PutUint64 (v : Nat) : Bytes :=
  [v / 2 ^ 56 % 256, v / 2 ^ 48 % 256, v / 2 ^ 40 % 256, v / 2 ^ 32 % 256,
   v / 2 ^ 24 % 256, v / 2 ^ 16 % 256, v / 2 ^ 8 % 256, v % 256]

/-- Go `binary.BigEndian.Uint64`: the first eight bytes read as an unsigned
big-endian integer.  (Go panics on a slice shorter than eight bytes; every
slice the store reads back was written by `ConvInt64ToBytes`.) -/
def BigEndian_Uint64 (b : Bytes) : Nat :=
  (b.take 8).foldl (fun acc x => acc * 256 + x) 0

/-- Modelled from the spec: `np2p_util.ConvInt64ToBytes`, whose source file is
missing; the timestamp is serialized as the 8 big-endian bytes of its unsigned
reinterpretation (the form `getEventByTimestampBytes` reads back). -/
def ConvInt64ToBytes (val : Int) : Bytes := BigEndian_PutUint64 (uint64OfInt64 val)

/-- Modelled from the spec: `np2p_util.ConvUint64ToBytes`, whose source file is
missing; the 8 big-endian bytes of the 64-bit author key. -/
def ConvUint64ToBytes (val : Nat) : Bytes := BigEndian_PutUint64 (val % 2 ^ 64)

/-- Modelled from the spec: `np2p_util.ExtractUint64FromBytes`, whose source
file is missing; the inverse reading of `ConvUint64ToBytes`. -/
def ExtractUint64FromBytes (b : Bytes) : Nat := BigEndian_Uint64 b

/-! ## Events and their serializer -/

/-- Modelled from the spec: `schema.Np2pEvent`, whose source file is missing.
The store reads `Id`, `Pubkey` and `Created_at`; the remaining protocol fields
are opaque to it and kept as `Content`. -/
structure Np2pEvent where
  Id : Bytes
  Pubkey : Bytes
  Created_at : Int
  Content : Bytes
deriving DecidableEq, Repr

/-- Modelled from the spec: the event serializer `Np2pEvent.Encode` /
`schema.NewNp2pEventFromBytes`, whose source file is missing.  It is a
parameter of the store; a failed decoding yields the nil event `none`. -/
structure Serializer where
  Encode : Np2pEvent → Bytes
  Decode : Bytes → Option Np2pEvent

/-- The round-trip law of the serializer: `decode (encode e) = e`. -/
def Serializer.RoundTrip (ser : Serializer) : Prop :=
  ∀ e : Np2pEvent, ser.Decode (ser.Encode e) = some e

/-! ## The iterator `NutsDBItr` -/

/-- The cursor `NutsDBItr` over a materialized list. -/
structure NutsDBItr (α : Type) where
  curIdx : Int
  elems : List α
deriving DecidableEq, Repr

/-- `NewNutsDBItr`: the cursor starts at `-1`. -/
def NewNutsDBItr {α : Type} (elems : List α) : NutsDBItr α :=
  { curIdx := -1, elems := elems }

/-- `NutsDBItr.Next`: the advanced iterator and the returned flag. -/
def NutsDBItr.Next {α : Type} (n : NutsDBItr α) : NutsDBItr α × Bool :=
  if n.curIdx < (n.elems.length : Int) then
    ({ n with curIdx := n.curIdx + 1 }, true)
  else
    (n, false)

/-- `NutsDBItr.Value`: `elems[curIdx]`; `none` stands for the index-out-of-range
panic. -/
def NutsDBItr.Value {α : Type} (n : NutsDBItr α) : Option α :=
  if 0 ≤ n.curIdx then n.elems.get? n.curIdx.toNat else none

/-- The iterator after `k` calls of `Next`. -/
def NutsDBItr.advance {α : Type} : Nat → NutsDBItr α → NutsDBItr α
  | 0, n => n
  | k + 1, n => NutsDBItr.advance k n.Next.1

/-! ## The key-value substrate -/

/-- The errors a transaction of the substrate can end with. -/
inductive DBError where
  | ErrDBClosed
  | ErrKeyNotFound
  | ErrStartOrEnd
deriving DecidableEq, Repr

deriving instance DecidableEq for Except

/-- A member of a score-ordered set, as returned by `ZRangeByScore`. -/
structure SortedSetMember where
  Score : Float64
  Value : Bytes
deriving DecidableEq, Repr

/-- The score-ordered set held under one key: its members in scan order,
ascending by score. -/
abbrev SortedSet := List SortedSetMember

/-- The ordered map of a B-tree bucket, as its list of entries. -/
abbrev BTree := List (Bytes × Bytes)

/-- Insertion of a member at its place in scan order; among members of equal
score the earlier insertion stays first. -/
def SortedSet.insert (m : SortedSetMember) : SortedSet → SortedSet
  | [] => [m]
  | x :: xs => if x.Score ≤ m.Score then x :: SortedSet.insert m xs else m :: x :: xs

/-- The sorted-set write `ZAdd`: a member is identified by its value; adding a
value already present with another score moves it. -/
def SortedSet.ZAdd (z : SortedSet) (score : Float64) (val : Bytes) : SortedSet :=
  if (⟨score, val⟩ : SortedSetMember) ∈ z then z
  else SortedSet.insert ⟨score, val⟩ (z.filter (fun x => decide (x.Value ≠ val)))

/-- The sorted-set removal `ZRem`, by exact value. -/
def SortedSet.ZRem (z : SortedSet) (val : Bytes) : SortedSet :=
  z.filter (fun x => decide (x.Value ≠ val))

/-- The range scan `ZRangeByScore` with nil options: the members with score in
the closed interval, ascending; with `start > stop` the interval is taken the
other way round and the members are returned descending. -/
def SortedSet.ZRangeByScore (z : SortedSet) (start stop : Float64) : List SortedSetMember :=
  if start ≤ stop then
    z.filter (fun x => decide (start ≤ x.Score ∧ x.Score ≤ stop))
  else
    (z.filter (fun x => decide (stop ≤ x.Score ∧ x.Score ≤ start))).reverse

/-- The ordered-map write `Put`: the entry of the key is replaced. -/
def BTree.Put (m : BTree) (key val : Bytes) : BTree :=
  (key, val) :: m.filter (fun p => decide (p.1 ≠ key))

/-- The ordered-map read `Get`: an absent key is an error. -/
def BTree.Get (m : BTree) (key : Bytes) : Except DBError Bytes :=
  match m.find? (fun p => decide (p.1 = key)) with
  | some p => .ok p.2
  | none => .error .ErrKeyNotFound

/-- The list write `RPush`: append at the tail. -/
def RPush (l : List Bytes) (val : Bytes) : List Bytes := l ++ [val]

/-- The list read `LSize`. -/
def LSize (l : List Bytes) : Int := (l.length : Int)

/-- Index normalisation of `LRange`: negative indices count from the tail, the
end is clipped to the last element, and an empty interval is an error. -/
def checkBounds (start stop size : Int) : Except DBError (Int × Int) :=
  let stop1 := if 0 ≤ start ∧ stop < 0 then size + stop else stop
  let start1 := if start < 0 ∧ 0 < stop1 then size + start else start
  let start2 := if start1 < 0 ∧ stop1 < 0 then size + start1 else start1
  let stop2 := if start1 < 0 ∧ stop1 < 0 then size + stop1 else stop1
  let stop3 := if size ≤ stop2 then size - 1 else stop2
  if stop3 < start2 then .error .ErrStartOrEnd else .ok (start2, stop3)

/-- The list read `LRange`: the elements at the indices from `start` to `stop`,
both inclusive. -/
def LRange (l : List Bytes) (start stop : Int) : Except DBError (List Bytes) :=
  if l.length = 0 then .ok []
  else
    match checkBounds start stop (l.length : Int) with
    | .error e => .error e
    | .ok (s, e) => .ok ((l.drop s.toNat).take ((e + 1).toNat - s.toNat))

/-- The database handle `NutsDBDataManager.db`: one field for each bucket the
manager creates (each score-ordered set and the list live under the single key
`"time"`), and whether the handle has been closed, in which case every
transaction fails. -/
structure DB where
  closed : Bool
  EventListTimeKey : SortedSet
  EventIdxMapIdKey : BTree
  ProfEvtIdxMap : BTree
  FollowListEvtIdxMap : BTree
  EventListKeyListForLimit : List Bytes
  ReSendNeededEvtList : SortedSet
deriving DecidableEq, Repr

/-- The store right after `NewNutsDBDataManager`: every bucket is empty. -/
def DB.empty : DB :=
  { closed := false, EventListTimeKey := [], EventIdxMapIdKey := [], ProfEvtIdxMap := [],
    FollowListEvtIdxMap := [], EventListKeyListForLimit := [], ReSendNeededEvtList := [] }

/-- A read transaction `db.View`: fails as a whole on a closed handle. -/
def DB.View {α : Type} (db : DB) (fn : DB → Except DBError α) : Except DBError α :=
  if db.closed then .error .ErrDBClosed else fn db

/-- A write transaction `db.Update` as the manager uses it: on an error the
error is printed and the store is left as it was. -/
def DB.Update (db : DB) (fn : DB → Except DBError DB) : DB :=
  if db.closed then db
  else
    match fn db with
    | .ok db1 => db1
    | .error _ => db

/-! ## The data manager -/

/-- `NutsDBDataManager.StoreEvent`: three write transactions, to the Time
Index, the Identity Index and the Ledger. -/
def StoreEvent (ser : Serializer) (n : DB) (evt : Np2pEvent) : DB :=
  let n1 := n.Update (fun tx => .ok { tx with
    EventListTimeKey := tx.EventListTimeKey.ZAdd (float64OfInt64 evt.Created_at) (ser.Encode evt) })
  let n2 := n1.Update (fun tx => .ok { tx with
    EventIdxMapIdKey := tx.EventIdxMapIdKey.Put evt.Id (ConvInt64ToBytes evt.Created_at) })
  n2.Update (fun tx => .ok { tx with
    EventListKeyListForLimit := RPush tx.EventListKeyListForLimit (ConvInt64ToBytes evt.Created_at) })

/-- `NutsDBDataManager.getEventByTimestampBytes`: the first member of the Time
Index whose score equals the timestamp read from the bytes; `none` is the nil
event. -/
def getEventByTimestampBytes (ser : Serializer) (n : DB) (tsBytes : Bytes) : Option Np2pEvent :=
  let ts := float64OfUint64 (BigEndian_Uint64 tsBytes)
  match n.View (fun tx =>
      match tx.EventListTimeKey.ZRangeByScore ts ts with
      | [] => .ok none
      | entry :: _ => .ok (ser.Decode entry.Value)) with
  | .error _ => none
  | .ok ret => ret

/-- `NutsDBDataManager.GetEventById`: the event and the found flag. -/
def GetEventById (ser : Serializer) (n : DB) (evtId : Bytes) : Option Np2pEvent × Bool :=
  match n.View (fun tx =>
      match tx.EventIdxMapIdKey.Get evtId with
      | .error err2 => .error err2
      | .ok val => .ok (getEventByTimestampBytes ser n val)) with
  | .error _ => (none, false)
  | .ok ret => (ret, true)

/-- The index key of an author: `tmpPubKey[len(tmpPubKey)-8:]`, the low 8
bytes of the public key. -/
def pubkeyLow8 (pubkey : Bytes) : Bytes := pubkey.drop (pubkey.length - 8)

/-- `NutsDBDataManager.StoreProfile`. -/
def StoreProfile (n : DB) (evt : Np2pEvent) : DB :=
  n.Update (fun tx => .ok { tx with
    ProfEvtIdxMap := tx.ProfEvtIdxMap.Put (pubkeyLow8 evt.Pubkey) (ConvInt64ToBytes evt.Created_at) })

/-- `NutsDBDataManager.GetProfileLocal`. -/
def GetProfileLocal (ser : Serializer) (n : DB) (pubkey64bit : Nat) : Option Np2pEvent :=
  match n.View (fun tx =>
      match tx.ProfEvtIdxMap.Get (ConvUint64ToBytes pubkey64bit) with
      | .error err2 => .error err2
      | .ok val => .ok (getEventByTimestampBytes ser n val)) with
  | .error _ => none
  | .ok ret => ret

/-- The first read transaction of `GetLatestEvents` when a limit is set: the
lower bound `since_` computed from the Ledger. -/
def limitLowerBound (n : DB) (limit : Int) : Except DBError Float64 :=
  n.View (fun tx =>
    if LSize tx.EventListKeyListForLimit ≤ limit then .ok 0
    else
      match LRange tx.EventListKeyListForLimit (wrapInt64 (-1 * limit)) (wrapInt64 (-1 * limit)) with
      | .error err3 => .error err3
      | .ok (entry :: _) => .ok (float64OfUint64 (ExtractUint64FromBytes entry))
      | .ok [] => .ok 0)

/-- The common route of `GetLatestEvents`: the range scan of the Time Index and
the decoding of each member. -/
def scanTimeIndex (ser : Serializer) (n : DB) (since_ until_ : Float64) : List (Option Np2pEvent) :=
  match n.View (fun tx =>
      .ok ((tx.EventListTimeKey.ZRangeByScore since_ until_).map (fun entry => ser.Decode entry.Value))) with
  | .error _ => []
  | .ok ret => ret

/-- `NutsDBDataManager.GetLatestEvents`. -/
def GetLatestEvents (ser : Serializer) (n : DB) (since until' limit : Int) : List (Option Np2pEvent) :=
  if limit ≠ -1 then
    match limitLowerBound n limit with
    | .error _ => []
    | .ok since_ => scanTimeIndex ser n since_ MaxFloat64
  else
    scanTimeIndex ser n (float64OfInt64 since) (float64OfInt64 until')

/-- `NutsDBDataManager.StoreFollowList`. -/
def StoreFollowList (n : DB) (evt : Np2pEvent) : DB :=
  n.Update (fun tx => .ok { tx with
    FollowListEvtIdxMap := tx.FollowListEvtIdxMap.Put (pubkeyLow8 evt.Pubkey) (ConvInt64ToBytes evt.Created_at) })

/-- `NutsDBDataManager.GetFollowListLocal`. -/
def GetFollowListLocal (ser : Serializer) (n : DB) (pubkey64bit : Nat) : Option Np2pEvent :=
  match n.View (fun tx =>
      match tx.FollowListEvtIdxMap.Get (ConvUint64ToBytes pubkey64bit) with
      | .error err2 => .error err2
      | .ok val => .ok (getEventByTimestampBytes ser n val)) with
  | .error _ => none
  | .ok ret => ret

/-- Modelled from the spec: `schema.ResendEvent`, whose source file is missing:
the destinations still owed delivery, the event identifier and the timestamp
copied from the event. -/
structure ResendEvent where
  DestIds : List Nat
  EvtId : Bytes
  CreatedAt : Int
deriving DecidableEq, Repr

/-- Modelled from the spec: `schema.NewResendEvent`, whose source file is
missing. -/
def NewResendEvent (destIds : List Nat) (evtId : Bytes) (createdAt : Int) : ResendEvent :=
  { DestIds := destIds, EvtId := evtId, CreatedAt := createdAt }

/-- Modelled from the spec: the serializer of resend records,
`ResendEvent.Encode` / `schema.NewResendEventFromBytes`, whose source file is
missing; a parameter of the store. -/
structure ResendSerializer where
  Encode : ResendEvent → Bytes
  Decode : Bytes → Option ResendEvent

/-- `NutsDBDataManager.AddReSendNeededEvent`. -/
def AddReSendNeededEvent (rser : ResendSerializer) (n : DB) (destIds : List Nat) (evt : Np2pEvent)
    (_isLogging : Bool) : DB :=
  let resendEvent := NewResendEvent destIds evt.Id evt.Created_at
  n.Update (fun tx => .ok { tx with
    ReSendNeededEvtList := tx.ReSendNeededEvtList.ZAdd (float64OfInt64 evt.Created_at) (rser.Encode resendEvent) })

/-- `NutsDBDataManager.RemoveReSendNeededEvent`. -/
def RemoveReSendNeededEvent (rser : ResendSerializer) (n : DB) (resendEvt : ResendEvent)
    (_evt : Np2pEvent) : DB :=
  n.Update (fun tx => .ok { tx with
    ReSendNeededEvtList := tx.ReSendNeededEvtList.ZRem (rser.Encode resendEvt) })

/-- `NutsDBDataManager.GetReSendNeededEventItr`: `none` is the nil iterator
returned when the read transaction fails. -/
def GetReSendNeededEventItr (rser : ResendSerializer) (n : DB) : Option (NutsDBItr (Option ResendEvent)) :=
  match n.View (fun tx => .ok (tx.ReSendNeededEvtList.ZRangeByScore 0 MaxFloat64)) with
  | .error _ => none
  | .ok entries_ => some (NewNutsDBItr (entries_.map (fun entry => rser.Decode entry.Value)))

/-! ## Concrete serializer, events and stores -/

/-- A reference serializer, used to instantiate the serializer parameter on
concrete stores: two length fields, the sign and magnitude of the timestamp,
then the three byte fields. -/
def refSerializer : Serializer where
  Encode := fun e =>
    e.Id.length :: e.Pubkey.length :: (if 0 ≤ e.Created_at then 0 else 1) :: e.Created_at.natAbs ::
      (e.Id ++ (e.Pubkey ++ e.Content))
  Decode := fun b =>
    match b with
    | li :: lp :: sg :: mag :: rest =>
      some { Id := rest.take li, Pubkey := (rest.drop li).take lp,
             Created_at := if sg = 0 then (mag : Int) else -(mag : Int),
             Content := (rest.drop li).drop lp }
    | _ => none

/-- A 32-byte identifier or public key ending in the given byte. -/
def key32 (b : Nat) : Bytes := List.replicate 31 0 ++ [b]

/-- An event with the given identifier byte, author byte and timestamp. -/
def mkEvent (i a : Nat) (c : Int) : Np2pEvent :=
  { Id := key32 i, Pubkey := key32 a, Created_at := c, Content := [] }

/-- The store after storing the given events, in order, with `StoreEvent`. -/
def storeAll (ser : Serializer) (n : DB) (evs : List Np2pEvent) : DB :=
  evs.foldl (StoreEvent ser) n

/-- The member under which `StoreEvent` files an event in the Time Index. -/
def timeMember (ser : Serializer) (e : Np2pEvent) : SortedSetMember :=
  { Score := float64OfInt64 e.Created_at, Value := ser.Encode e }

/-- The key is absent from the ordered map. -/
def BTree.Absent (m : BTree) (key : Bytes) : Prop := ∀ p ∈ m, p.1 ≠ key

/-- The entries the ordered map holds for a key. -/
def BTree.entriesOf (m : BTree) (key : Bytes) : List (Bytes × Bytes) :=
  m.filter (fun p => decide (p.1 = key))

/-- No member of the score-ordered set other than `val` has the score. -/
def SortedSet.ScoreFree (z : SortedSet) (score : Float64) (val : Bytes) : Prop :=
  ∀ m ∈ z, m.Score = score → m.Value = val

/-- Go conversion `int64(x)` of a `uint64`: two's complement reinterpretation. -/
def int64OfUint64 (x : Nat) : Int := wrapInt64 (x : Int)

instance (z : SortedSet) (score : Float64) (val : Bytes) : Decidable (z.ScoreFree score val) := by
  unfold SortedSet.ScoreFree
  infer_instance

instance (m : BTree) (key : Bytes) : Decidable (m.Absent key) := by
  unfold BTree.Absent
  infer_instance

/-- An event stamped before the epoch. -/
def eventBeforeEpoch : Np2pEvent := mkEvent 1 7 (-1)

/-- Two distinct events of one author carrying the same timestamp. -/
def eventAt5 : Np2pEvent := mkEvent 2 7 5

/-- The second event stamped 5. -/
def otherAt5 : Np2pEvent := mkEvent 3 7 5

/-- An event stamped 20. -/
def eventAt20 : Np2pEvent := mkEvent 4 7 20

/-- An event whose timestamp `2 ^ 53 + 1` is not representable as a double. -/
def eventOddAbove53 : Np2pEvent := mkEvent 5 7 (2 ^ 53 + 1)

/-- The score interval that `GetLatestEvents` scans for the caller's window. -/
def inScoreWindow (since until' : Int) (e : Np2pEvent) : Bool :=
  decide (float64OfInt64 since ≤ float64OfInt64 e.Created_at ∧
    float64OfInt64 e.Created_at ≤ float64OfInt64 until')

/-- The caller's window on the timestamps themselves. -/
def inTimeWindow (since until' : Int) (e : Np2pEvent) : Bool :=
  decide (since ≤ e.Created_at ∧ e.Created_at ≤ until')

/-- Ascending by score. -/
def scoreLe (a b : Np2pEvent) : Prop := float64OfInt64 a.Created_at ≤ float64OfInt64 b.Created_at

instance (a b : Np2pEvent) : Decidable (scoreLe a b) := by
  unfold scoreLe
  infer_instance

/-- A store whose Identity Index points at the timestamp 5 while the Time
Index holds no member: the state left when the first write of `StoreEvent` is
lost. -/
def driftedStore : DB :=
  { DB.empty with EventIdxMapIdKey := [(key32 9, ConvInt64ToBytes 5)] }

/-- The 64-bit author key of an event: the low 8 bytes of the public key read
as an unsigned big-endian integer. -/
def authorKey (evt : Np2pEvent) : Nat := BigEndian_Uint64 (pubkeyLow8 evt.Pubkey)

/-! ## Resend records, runs of operations -/

/-- The round-trip law of the resend-record serializer. -/
def ResendSerializer.RoundTrip (rser : ResendSerializer) : Prop :=
  ∀ r : ResendEvent, rser.Decode (rser.Encode r) = some r

/-- A reference serializer of resend records, used to instantiate the
serializer parameter on concrete stores: the length of the identifier, the
sign and magnitude of the timestamp, then the identifier and the
destinations. -/
def refResendSerializer : ResendSerializer where
  Encode := fun r =>
    r.EvtId.length :: (if 0 ≤ r.CreatedAt then 0 else 1) :: r.CreatedAt.natAbs ::
      (r.EvtId ++ r.DestIds)
  Decode := fun b =>
    match b with
    | li :: sg :: mag :: rest =>
      some { DestIds := rest.drop li, EvtId := rest.take li,
             CreatedAt := if sg = 0 then (mag : Int) else -(mag : Int) }
    | _ => none

/-- The record that `AddReSendNeededEvent` files for an event. -/
def resendRecord (destIds : List Nat) (evt : Np2pEvent) : ResendEvent :=
  NewResendEvent destIds evt.Id evt.Created_at

/-- Every member of the queue is a serialized record. -/
def SortedSet.HoldsRecords (rser : ResendSerializer) (z : SortedSet) : Prop :=
  ∀ m ∈ z, ∃ r : ResendEvent, m.Value = rser.Encode r

/-- The value lies in the `int64` range. -/
def IsInt64 (x : Int) : Prop := -2 ^ 63 ≤ x ∧ x < 2 ^ 63

instance (x : Int) : Decidable (IsInt64 x) := by
  unfold IsInt64
  infer_instance

/-- The calls of the public operations of the data manager.  The query
operations issue read transactions only. -/
inductive Op where
  | StoreEvent (evt : Np2pEvent)
  | StoreProfile (evt : Np2pEvent)
  | StoreFollowList (evt : Np2pEvent)
  | AddReSendNeededEvent (destIds : List Nat) (evt : Np2pEvent) (isLogging : Bool)
  | RemoveReSendNeededEvent (resendEvt : ResendEvent) (evt : Np2pEvent)
  | GetEventById (evtId : Bytes)
  | GetProfileLocal (pubkey64bit : Nat)
  | GetFollowListLocal (pubkey64bit : Nat)
  | GetLatestEvents (since until' limit : Int)
  | GetReSendNeededEventItr
deriving DecidableEq, Repr

/-- The store after one call: the write operations as defined above; a query
leaves the store as it is. -/
def Op.apply (ser : Serializer) (rser : ResendSerializer) (n : DB) : Op → DB
  | .StoreEvent evt => Core.StoreEvent ser n evt
  | .StoreProfile evt => Core.StoreProfile n evt
  | .StoreFollowList evt => Core.StoreFollowList n evt
  | .AddReSendNeededEvent destIds evt isLogging =>
    Core.AddReSendNeededEvent rser n destIds evt isLogging
  | .RemoveReSendNeededEvent resendEvt evt => Core.RemoveReSendNeededEvent rser n resendEvt evt
  | .GetEventById _ => n
  | .GetProfileLocal _ => n
  | .GetFollowListLocal _ => n
  | .GetLatestEvents _ _ _ => n
  | .GetReSendNeededEventItr => n

/-- The store after a sequence of calls. -/
def runOps (ser : Serializer) (rser : ResendSerializer) (n : DB) (ops : List Op) : DB :=
  ops.foldl (Op.apply ser rser) n

/-- The events passed to `StoreEvent` in a sequence of calls, in call order. -/
def storedEvents : List Op → List Np2pEvent
  | [] => []
  | .StoreEvent evt :: ops => evt :: storedEvents ops
  | _ :: ops => storedEvents ops

/-- The timestamp an index entry or Ledger element denotes, read back as an
`int64`. -/
def timestampOfBytes (b : Bytes) : Int := int64OfUint64 (BigEndian_Uint64 b)

/-- An event stamped with the largest `int64`. -/
def eventAtMaxInt64 : Np2pEvent := mkEvent 6 7 (2 ^ 63 - 1)

/-- An event of another author stamped with the smallest `int64`. -/
def eventAtMinInt64 : Np2pEvent := mkEvent 7 8 (-2 ^ 63)

/-- The invariant of the two indexes of the event store: the handle is open,
every Time Index member is an event filed under its score, and every Identity
Index entry is the identifier and serialized timestamp of an event held in the
Time Index. -/
def IndexesAgree (ser : Serializer) (n : DB) : Prop :=
  n.closed = false ∧
  (∀ m ∈ n.EventListTimeKey, ∃ e : Np2pEvent, m = timeMember ser e) ∧
  (∀ p ∈ n.EventIdxMapIdKey, ∃ e : Np2pEvent, IsInt64 e.Created_at ∧
    p = (e.Id, ConvInt64ToBytes e.Created_at) ∧ timeMember ser e ∈ n.EventListTimeKey)

/-- The members are in ascending score order. -/
def SortedSet.Ascending (z : SortedSet) : Prop := z.Pairwise (fun a b => a.Score ≤ b.Score)

/-- The invariant of the Time Index along a sequence of calls: the handle is
open, the members are in ascending score order, and they are exactly the
events of the list `stored`, each filed under its score. -/
def HoldsStored (ser : Serializer) (n : DB) (stored : List Np2pEvent) : Prop :=
  n.closed = false ∧ n.EventListTimeKey.Ascending ∧
  (∀ m ∈ n.EventListTimeKey, ∃ e ∈ stored, m = timeMember ser e) ∧
  (∀ e ∈ stored, timeMember ser e ∈ n.EventListTimeKey)

/-- An event whose public key is the bytes 0 to 31, with the given identifier
byte and timestamp. -/
def mkEventRangeKey (i : Nat) (c : Int) : Np2pEvent :=
  { Id := key32 i, Pubkey := List.range 32, Created_at := c, Content := [] }

/-- Every member of the queue is a serialized record filed under the score of
its timestamp. -/
def SortedSet.HoldsScoredRecords (rser : ResendSerializer) (z : SortedSet) : Prop :=
  ∀ m ∈ z, ∃ r : ResendEvent, m = ⟨float64OfInt64 r.CreatedAt, rser.Encode r⟩

/-- The call removes the given record from the Resend Queue. -/
def Op.removesRecord (r : ResendEvent) : Op → Bool
  | .RemoveReSendNeededEvent resendEvt _ => decide (resendEvt = r)
  | _ => false

/-! ## Theorems -/

/-! ### Bytes and scores -/

theorem BigEndian_Uint64_PutUint64 (v : Nat) :
    BigEndian_Uint64 (BigEndian_PutUint64 v) = v % 2 ^ 64 := by
  simp only [BigEndian_Uint64, BigEndian_PutUint64, List.take, List.foldl]
  omega

theorem uint64OfInt64_of_nonneg (x : Int) (h0 : 0 ≤ x) (h1 : x < 2 ^ 63) :
    uint64OfInt64 x = x.toNat := by
  unfold uint64OfInt64
  omega

theorem BigEndian_Uint64_ConvInt64ToBytes (x : Int) :
    BigEndian_Uint64 (ConvInt64ToBytes x) = uint64OfInt64 x := by
  rw [ConvInt64ToBytes, BigEndian_Uint64_PutUint64]
  unfold uint64OfInt64
  omega

theorem roundHalfEven_ge (n ulp L : Nat) (hu : 0 < ulp) (hd : ulp ∣ L) (h : L ≤ n) :
    L ≤ roundHalfEven n ulp := by
  obtain ⟨k, rfl⟩ := hd
  have hk : k ≤ n / ulp := by
    rw [Nat.le_div_iff_mul_le hu]; rw [Nat.mul_comm]; exact h
  have h1 : ulp * k ≤ n / ulp * ulp := by
    rw [Nat.mul_comm]; exact Nat.mul_le_mul_right _ hk
  have h2 : n / ulp * ulp ≤ (n / ulp + 1) * ulp := Nat.mul_le_mul_right _ (Nat.le_succ _)
  unfold roundHalfEven
  simp only
  split_ifs <;> omega

theorem roundHalfEven_le (n ulp L : Nat) (hu : 0 < ulp) (hd : ulp ∣ L) (h : n ≤ L) :
    roundHalfEven n ulp ≤ L := by
  obtain ⟨k, rfl⟩ := hd
  have hdm := Nat.div_add_mod n ulp
  have hml := Nat.mod_lt n hu
  rcases Nat.lt_or_ge (n / ulp) k with hq | hq
  · have h1 : (n / ulp + 1) * ulp ≤ ulp * k := by
      rw [Nat.mul_comm ulp k]; exact Nat.mul_le_mul_right _ hq
    have h2 : n / ulp * ulp ≤ (n / ulp + 1) * ulp := Nat.mul_le_mul_right _ (Nat.le_succ _)
    unfold roundHalfEven
    simp only
    split_ifs <;> omega
  · have h1 : ulp * k ≤ ulp * (n / ulp) := Nat.mul_le_mul_left _ hq
    have hr : n % ulp = 0 := by omega
    have h3 : n / ulp * ulp = ulp * (n / ulp) := Nat.mul_comm _ _
    unfold roundHalfEven
    simp only [hr]
    rw [if_pos (by omega)]
    omega

theorem roundHalfEven_mono (ulp : Nat) (hu : 0 < ulp) {a b : Nat} (h : a ≤ b) :
    roundHalfEven a ulp ≤ roundHalfEven b ulp := by
  have hq : a / ulp ≤ b / ulp := Nat.div_le_div_right h
  rcases Nat.lt_or_ge (a / ulp) (b / ulp) with hlt | hge
  · -- the next multiple above `a` is at most `b`
    have hL : (a / ulp + 1) * ulp ≤ b := by
      have := Nat.div_mul_le_self b ulp
      have h1 : (a / ulp + 1) * ulp ≤ b / ulp * ulp := Nat.mul_le_mul_right _ hlt
      omega
    have ha : a ≤ (a / ulp + 1) * ulp := by
      have := Nat.div_add_mod a ulp
      have := Nat.mod_lt a hu
      have : (a / ulp + 1) * ulp = ulp * (a / ulp) + ulp := by ring
      omega
    exact le_trans (roundHalfEven_le a ulp _ hu (Dvd.intro_left _ rfl) ha)
      (roundHalfEven_ge b ulp _ hu (Dvd.intro_left _ rfl) hL)
  · have heq : a / ulp = b / ulp := le_antisymm hq hge
    have hda := Nat.div_add_mod a ulp
    have hdb := Nat.div_add_mod b ulp
    have hr : a % ulp ≤ b % ulp := by
      rw [heq] at hda; omega
    have h2 : b / ulp * ulp ≤ (b / ulp + 1) * ulp := Nat.mul_le_mul_right _ (Nat.le_succ _)
    unfold roundHalfEven
    simp only [heq]
    split_ifs <;> omega

theorem roundBinade_ge (fuel ulp n L : Nat) (hu : 0 < ulp) (hd : 2 ^ fuel * ulp ∣ L) (h : L ≤ n) :
    L ≤ roundBinade fuel ulp n := by
  induction fuel generalizing ulp with
  | zero => simpa [roundBinade] using roundHalfEven_ge n ulp L hu (by simpa using hd) h
  | succ fuel ih =>
    rw [roundBinade]
    split_ifs
    · exact roundHalfEven_ge n ulp L hu (Dvd.dvd.trans (Dvd.intro_left _ rfl) hd) h
    · exact ih (2 * ulp) (by omega) (by rw [← Nat.mul_assoc, ← Nat.pow_succ]; exact hd)

theorem roundBinade_mono (fuel ulp : Nat) (hu : 0 < ulp) (hf : fuel ≤ 52) {a b : Nat} (h : a ≤ b) :
    roundBinade fuel ulp a ≤ roundBinade fuel ulp b := by
  induction fuel generalizing ulp with
  | zero => simpa [roundBinade] using roundHalfEven_mono ulp hu h
  | succ fuel ih =>
    rw [roundBinade, roundBinade]
    by_cases hb : b < 2 ^ 53 * ulp
    · rw [if_pos hb, if_pos (lt_of_le_of_lt h hb)]
      exact roundHalfEven_mono ulp hu h
    · rw [if_neg hb]
      by_cases ha : a < 2 ^ 53 * ulp
      · rw [if_pos ha]
        have h1 : roundHalfEven a ulp ≤ 2 ^ 53 * ulp :=
          roundHalfEven_le a ulp _ hu (Dvd.intro_left _ rfl) (le_of_lt ha)
        have h2 : 2 ^ 53 * ulp ≤ roundBinade fuel (2 * ulp) b := by
          apply roundBinade_ge fuel (2 * ulp) b _ (by omega) _ (by omega)
          rw [← Nat.mul_assoc, ← Nat.pow_succ]
          exact Nat.mul_dvd_mul_right (Nat.pow_dvd_pow 2 (by omega)) ulp
        exact le_trans h1 h2
      · rw [if_neg ha]
        exact ih (2 * ulp) (by omega) (by omega)

theorem float64OfUint64_mono {a b : Nat} (h : a ≤ b) : float64OfUint64 a ≤ float64OfUint64 b := by
  unfold float64OfUint64
  exact_mod_cast roundBinade_mono 11 1 (by omega) (by omega) h

theorem float64OfInt64_mono {a b : Int} (h : a ≤ b) : float64OfInt64 a ≤ float64OfInt64 b := by
  unfold float64OfInt64
  split_ifs with ha hb hb
  · exact_mod_cast roundBinade_mono 11 1 (by omega) (by omega) (Int.toNat_le_toNat h)
  · omega
  · have h1 : (0 : Int) ≤ (roundBinade 11 1 b.toNat : Nat) := Int.natCast_nonneg _
    have h2 : (0 : Int) ≤ (roundBinade 11 1 (-a).toNat : Nat) := Int.natCast_nonneg _
    linarith
  · have h1 : roundBinade 11 1 (-b).toNat ≤ roundBinade 11 1 (-a).toNat :=
      roundBinade_mono 11 1 (by omega) (by omega) (Int.toNat_le_toNat (by omega))
    have h2 : ((roundBinade 11 1 (-b).toNat : Nat) : Int) ≤ (roundBinade 11 1 (-a).toNat : Nat) := by
      exact_mod_cast h1
    linarith

theorem roundHalfEven_one (n : Nat) : roundHalfEven n 1 = n := by
  simp [roundHalfEven, Nat.mod_one]

theorem roundHalfEven_self_mul (k ulp : Nat) (hu : 0 < ulp) : roundHalfEven (k * ulp) ulp = k * ulp := by
  simp [roundHalfEven, hu, Nat.mul_div_cancel _ hu]

theorem roundBinade_exact (n : Nat) (h : n ≤ 2 ^ 53) : roundBinade 11 1 n = n := by
  rcases Nat.lt_or_ge n (2 ^ 53) with hlt | hge
  · rw [roundBinade, if_pos (by omega), roundHalfEven_one]
  · have hn : n = 2 ^ 53 := le_antisymm h hge
    subst hn
    decide

theorem float64OfUint64_exact (n : Nat) (h : n ≤ 2 ^ 53) : float64OfUint64 n = n := by
  rw [float64OfUint64, roundBinade_exact n h]

theorem float64OfInt64_exact (x : Int) (h0 : -2 ^ 53 ≤ x) (h1 : x ≤ 2 ^ 53) : float64OfInt64 x = x := by
  unfold float64OfInt64
  split_ifs with hx
  · rw [roundBinade_exact _ (by omega)]; exact Int.toNat_of_nonneg hx
  · rw [roundBinade_exact _ (by omega), Int.toNat_of_nonneg (by omega), neg_neg]

theorem float64_int64_eq_uint64 (x : Int) (h0 : 0 ≤ x) (h1 : x < 2 ^ 63) :
    float64OfUint64 (uint64OfInt64 x) = float64OfInt64 x := by
  rw [uint64OfInt64_of_nonneg x h0 h1, float64OfUint64, float64OfInt64, if_pos h0]

/-! ### The substrate -/

theorem SortedSet.mem_insert (m x : SortedSetMember) (z : SortedSet) :
    x ∈ SortedSet.insert m z ↔ x = m ∨ x ∈ z := by
  induction z with
  | nil => simp [SortedSet.insert]
  | cons y ys ih =>
    rw [SortedSet.insert]
    split_ifs
    · simp only [List.mem_cons, ih]; tauto
    · simp only [List.mem_cons]

theorem SortedSet.mem_ZAdd_self (z : SortedSet) (score : Float64) (val : Bytes) :
    (⟨score, val⟩ : SortedSetMember) ∈ z.ZAdd score val := by
  unfold SortedSet.ZAdd
  split_ifs with h
  · exact h
  · exact (SortedSet.mem_insert _ _ _).2 (Or.inl rfl)

theorem SortedSet.mem_ZAdd_cases (z : SortedSet) (score : Float64) (val : Bytes)
    (x : SortedSetMember) (hx : x ∈ z.ZAdd score val) : x = ⟨score, val⟩ ∨ x ∈ z := by
  unfold SortedSet.ZAdd at hx
  split_ifs at hx with h
  · exact Or.inr hx
  · rcases (SortedSet.mem_insert _ _ _).1 hx with h1 | h1
    · exact Or.inl h1
    · exact Or.inr (List.mem_filter.1 h1).1

theorem SortedSet.ScoreFree_ZAdd (z : SortedSet) (score : Float64) (val : Bytes)
    (h : z.ScoreFree score val) : (z.ZAdd score val).ScoreFree score val := by
  intro m hm hs
  rcases SortedSet.mem_ZAdd_cases z score val m hm with h1 | h1
  · rw [h1]
  · exact h m h1 hs

/-- The equal-score scan returns the member first when no other member has
its score. -/
theorem SortedSet.ZRangeByScore_point (z : SortedSet) (score : Float64) (val : Bytes)
    (hmem : (⟨score, val⟩ : SortedSetMember) ∈ z) (hfree : z.ScoreFree score val) :
    ∃ rest, z.ZRangeByScore score score = ⟨score, val⟩ :: rest := by
  unfold SortedSet.ZRangeByScore
  rw [if_pos (le_refl _)]
  have hne : (⟨score, val⟩ : SortedSetMember) ∈
      z.filter (fun x => decide (score ≤ x.Score ∧ x.Score ≤ score)) :=
    List.mem_filter.2 ⟨hmem, by simp⟩
  cases hf : z.filter (fun x => decide (score ≤ x.Score ∧ x.Score ≤ score)) with
  | nil => rw [hf] at hne; simp at hne
  | cons y ys =>
    have hy : y ∈ z.filter (fun x => decide (score ≤ x.Score ∧ x.Score ≤ score)) := by
      rw [hf]; exact List.mem_cons_self _ _
    obtain ⟨hyz, hys⟩ := List.mem_filter.1 hy
    have hsc : y.Score = score := by
      have h2 := of_decide_eq_true hys
      exact le_antisymm h2.2 h2.1
    have hv : y.Value = val := hfree y hyz hsc
    have : y = ⟨score, val⟩ := by
      cases y; simp only [SortedSetMember.mk.injEq]; exact ⟨hsc, hv⟩
    exact ⟨ys, by rw [this]⟩

/-- The equal-score scan is empty when no member has the score. -/
theorem SortedSet.ZRangeByScore_none (z : SortedSet) (score : Float64)
    (h : ∀ m ∈ z, m.Score ≠ score) : z.ZRangeByScore score score = [] := by
  unfold SortedSet.ZRangeByScore
  rw [if_pos (le_refl _), List.filter_eq_nil_iff]
  intro m hm hd
  have h2 := of_decide_eq_true hd
  exact h m hm (le_antisymm h2.2 h2.1)

theorem BTree.Get_Put_self (m : BTree) (key val : Bytes) : (m.Put key val).Get key = .ok val := by
  simp [BTree.Get, BTree.Put]

theorem BTree.Get_of_Absent (m : BTree) (key : Bytes) (h : m.Absent key) :
    m.Get key = .error .ErrKeyNotFound := by
  unfold BTree.Get
  have : m.find? (fun p => decide (p.1 = key)) = none := by
    rw [List.find?_eq_none]
    intro p hp
    simpa using h p hp
  rw [this]

theorem BTree.entriesOf_Put_self (m : BTree) (key val : Bytes) :
    (m.Put key val).entriesOf key = [(key, val)] := by
  simp only [BTree.entriesOf, BTree.Put, List.filter_cons, decide_True, if_true, List.filter_filter]
  congr 1
  rw [List.filter_eq_nil_iff]
  intro p _
  simp

theorem BTree.entriesOf_Put_other (m : BTree) (key val key2 : Bytes) (h : key2 ≠ key) :
    (m.Put key val).entriesOf key2 = m.entriesOf key2 := by
  simp only [BTree.entriesOf, BTree.Put, List.filter_cons, List.filter_filter]
  rw [if_neg (by simpa using fun h2 => h h2.symm)]
  apply List.filter_congr
  intro p _
  by_cases hp : p.1 = key2
  · simp [hp, h]
  · simp [hp]

theorem BTree.Get_Put_other (m : BTree) (key val key2 : Bytes) (h : key2 ≠ key) :
    (m.Put key val).Get key2 = m.Get key2 := by
  have hfind : (m.Put key val).find? (fun p => decide (p.1 = key2))
      = m.find? (fun p => decide (p.1 = key2)) := by
    simp only [BTree.Put]
    rw [List.find?_cons_of_neg _ (by simpa using fun h2 => h h2.symm)]
    induction m with
    | nil => rfl
    | cons p ps ih =>
      by_cases hp : p.1 = key2
      · have hk : p.1 ≠ key := by rw [hp]; exact h
        rw [List.filter_cons_of_pos (by simpa using hk)]
        rw [List.find?_cons_of_pos _ (by simpa using hp), List.find?_cons_of_pos _ (by simpa using hp)]
      · rw [List.find?_cons_of_neg _ (by simpa using hp)]
        by_cases hk : p.1 = key
        · rw [List.filter_cons_of_neg (by simpa using hk)]; exact ih
        · rw [List.filter_cons_of_pos (by simpa using hk),
            List.find?_cons_of_neg _ (by simpa using hp)]
          exact ih
  unfold BTree.Get
  rw [hfind]

/-! ### The write operations on an open handle -/

theorem StoreEvent_open (ser : Serializer) (n : DB) (evt : Np2pEvent) (h : n.closed = false) :
    StoreEvent ser n evt =
      { n with
        EventListTimeKey := n.EventListTimeKey.ZAdd (float64OfInt64 evt.Created_at) (ser.Encode evt)
        EventIdxMapIdKey := n.EventIdxMapIdKey.Put evt.Id (ConvInt64ToBytes evt.Created_at)
        EventListKeyListForLimit := RPush n.EventListKeyListForLimit (ConvInt64ToBytes evt.Created_at) } := by
  simp [StoreEvent, DB.Update, h]

theorem StoreProfile_open (n : DB) (evt : Np2pEvent) (h : n.closed = false) :
    StoreProfile n evt =
      { n with ProfEvtIdxMap :=
          n.ProfEvtIdxMap.Put (pubkeyLow8 evt.Pubkey) (ConvInt64ToBytes evt.Created_at) } := by
  simp [StoreProfile, DB.Update, h]

theorem StoreFollowList_open (n : DB) (evt : Np2pEvent) (h : n.closed = false) :
    StoreFollowList n evt =
      { n with FollowListEvtIdxMap :=
          n.FollowListEvtIdxMap.Put (pubkeyLow8 evt.Pubkey) (ConvInt64ToBytes evt.Created_at) } := by
  simp [StoreFollowList, DB.Update, h]

/-! ### Lookup by timestamp bytes -/

theorem getEventByTimestampBytes_hit (ser : Serializer) (hser : ser.RoundTrip) (n : DB)
    (h : n.closed = false) (e : Np2pEvent) (tsBytes : Bytes)
    (hts : float64OfUint64 (BigEndian_Uint64 tsBytes) = float64OfInt64 e.Created_at)
    (hmem : timeMember ser e ∈ n.EventListTimeKey)
    (hfree : n.EventListTimeKey.ScoreFree (float64OfInt64 e.Created_at) (ser.Encode e)) :
    getEventByTimestampBytes ser n tsBytes = some e := by
  obtain ⟨rest, hr⟩ := SortedSet.ZRangeByScore_point n.EventListTimeKey _ _ hmem hfree
  simp only [getEventByTimestampBytes, DB.View, h, hts]
  rw [hr]
  simp [hser e]

theorem getEventByTimestampBytes_miss (ser : Serializer) (n : DB) (tsBytes : Bytes)
    (hnone : ∀ m ∈ n.EventListTimeKey, m.Score ≠ float64OfUint64 (BigEndian_Uint64 tsBytes)) :
    getEventByTimestampBytes ser n tsBytes = none := by
  simp only [getEventByTimestampBytes, DB.View]
  split_ifs
  · rfl
  · rw [SortedSet.ZRangeByScore_none _ _ hnone]

theorem refSerializer_roundTrip : refSerializer.RoundTrip := by
  intro e
  cases e with
  | mk Id Pubkey Created_at Content =>
    simp only [refSerializer, List.take_left, List.drop_left, Option.some.injEq, Np2pEvent.mk.injEq,
      true_and]
    refine ⟨?_, ?_⟩
    · split_ifs with h1 h2 h2
      · exact Int.natAbs_of_nonneg h1
      · simp at h2
      · simp at h2
      · rw [Int.ofNat_natAbs_of_nonpos (by omega)]; simp
    · trivial

/-! ### Sequences of calls -/

theorem Serializer.RoundTrip.injective {ser : Serializer} (hser : ser.RoundTrip)
    {a b : Np2pEvent} (h : ser.Encode a = ser.Encode b) : a = b := by
  have ha := hser a
  rw [h, hser b] at ha
  exact (Option.some.inj ha).symm

theorem AddReSendNeededEvent_open (rser : ResendSerializer) (n : DB) (destIds : List Nat)
    (evt : Np2pEvent) (isLogging : Bool) (h : n.closed = false) :
    AddReSendNeededEvent rser n destIds evt isLogging =
      { n with
        ReSendNeededEvtList :=
          (SortedSet.ZAdd n.ReSendNeededEvtList (float64OfInt64 evt.Created_at)
            (rser.Encode (resendRecord destIds evt))) } := by
  simp [AddReSendNeededEvent, DB.Update, h, resendRecord]

theorem RemoveReSendNeededEvent_open (rser : ResendSerializer) (n : DB) (resendEvt : ResendEvent)
    (evt : Np2pEvent) (h : n.closed = false) :
    RemoveReSendNeededEvent rser n resendEvt evt =
      { n with ReSendNeededEvtList := n.ReSendNeededEvtList.ZRem (rser.Encode resendEvt) } := by
  simp [RemoveReSendNeededEvent, DB.Update, h]

theorem storedEvents_cons (op : Op) (ops : List Op) :
    storedEvents (op :: ops) = storedEvents [op] ++ storedEvents ops := by
  cases op <;> simp [storedEvents]

theorem runOps_cons (ser : Serializer) (rser : ResendSerializer) (n : DB) (op : Op)
    (ops : List Op) : runOps ser rser n (op :: ops) = runOps ser rser (Op.apply ser rser n op) ops := by
  simp [runOps]

/-- Filing an event keeps every member of a Time Index that holds events. -/
theorem SortedSet.mem_ZAdd_of_mem (ser : Serializer) (hser : ser.RoundTrip) (z : SortedSet)
    (hz : ∀ m ∈ z, ∃ e : Np2pEvent, m = timeMember ser e) (e : Np2pEvent)
    (x : SortedSetMember) (hx : x ∈ z) :
    x ∈ z.ZAdd (float64OfInt64 e.Created_at) (ser.Encode e) := by
  unfold SortedSet.ZAdd
  split_ifs with h
  · exact hx
  · apply (SortedSet.mem_insert _ _ _).2
    right
    apply List.mem_filter.2
    refine ⟨hx, ?_⟩
    apply decide_eq_true
    intro hval
    obtain ⟨e2, he2⟩ := hz x hx
    rw [he2] at hval
    have hee : e2 = e := hser.injective hval
    apply h
    rw [he2, hee] at hx
    exact hx


theorem SortedSet.insert_ascending (m : SortedSetMember) (z : SortedSet) (h : z.Ascending) :
    (SortedSet.insert m z).Ascending := by
  unfold SortedSet.Ascending at h ⊢
  induction z with
  | nil => simp [SortedSet.insert]
  | cons x xs ih =>
    obtain ⟨hx, hxs⟩ := List.pairwise_cons.1 h
    rw [SortedSet.insert]
    split_ifs with hle
    · apply List.pairwise_cons.2
      refine ⟨?_, ih hxs⟩
      intro y hy
      rcases (SortedSet.mem_insert _ _ _).1 hy with h1 | h1
      · rw [h1]; exact hle
      · exact hx y h1
    · have hlt : m.Score ≤ x.Score := le_of_lt (not_le.1 hle)
      apply List.pairwise_cons.2
      refine ⟨?_, h⟩
      intro y hy
      rcases List.mem_cons.1 hy with h1 | h1
      · rw [h1]; exact hlt
      · exact le_trans hlt (hx y h1)

theorem SortedSet.ZAdd_ascending (z : SortedSet) (score : Float64) (val : Bytes)
    (h : z.Ascending) : (z.ZAdd score val).Ascending := by
  unfold SortedSet.ZAdd
  split_ifs
  · exact h
  · apply SortedSet.insert_ascending
    exact List.Pairwise.sublist (List.filter_sublist _) h

theorem HoldsStored_empty (ser : Serializer) : HoldsStored ser DB.empty [] := by
  refine ⟨rfl, ?_, ?_, ?_⟩
  · simp [SortedSet.Ascending, DB.empty]
  · intro m hm; simp [DB.empty] at hm
  · intro e he; simp at he

theorem HoldsStored_StoreEvent (ser : Serializer) (hser : ser.RoundTrip) (n : DB)
    (stored : List Np2pEvent) (h : HoldsStored ser n stored) (evt : Np2pEvent) :
    HoldsStored ser (StoreEvent ser n evt) (stored ++ [evt]) := by
  obtain ⟨hc, hasc, hmem, hall⟩ := h
  have hz : ∀ m ∈ n.EventListTimeKey, ∃ e : Np2pEvent, m = timeMember ser e := fun m hm => by
    obtain ⟨e, _, he⟩ := hmem m hm
    exact ⟨e, he⟩
  rw [StoreEvent_open ser n evt hc]
  refine ⟨hc, SortedSet.ZAdd_ascending _ _ _ hasc, ?_, ?_⟩
  · intro m hm
    rcases SortedSet.mem_ZAdd_cases _ _ _ m hm with h1 | h1
    · exact ⟨evt, by simp, h1⟩
    · obtain ⟨e, he, hme⟩ := hmem m h1
      exact ⟨e, List.mem_append_left _ he, hme⟩
  · intro e he
    rcases List.mem_append.1 he with h1 | h1
    · exact SortedSet.mem_ZAdd_of_mem ser hser _ hz evt _ (hall e h1)
    · rw [List.mem_singleton.1 h1]
      exact SortedSet.mem_ZAdd_self _ _ _

theorem HoldsStored_apply (ser : Serializer) (hser : ser.RoundTrip) (rser : ResendSerializer)
    (n : DB) (stored : List Np2pEvent) (h : HoldsStored ser n stored) (op : Op) :
    HoldsStored ser (Op.apply ser rser n op) (stored ++ storedEvents [op]) := by
  have hc := h.1
  cases op with
  | StoreEvent evt => exact HoldsStored_StoreEvent ser hser n stored h evt
  | StoreProfile evt =>
    simp only [Op.apply, StoreProfile_open n evt hc, storedEvents, List.append_nil]; exact h
  | StoreFollowList evt =>
    simp only [Op.apply, StoreFollowList_open n evt hc, storedEvents, List.append_nil]; exact h
  | AddReSendNeededEvent destIds evt isLogging =>
    simp only [Op.apply, AddReSendNeededEvent_open rser n destIds evt isLogging hc, storedEvents,
      List.append_nil]
    exact h
  | RemoveReSendNeededEvent resendEvt evt =>
    simp only [Op.apply, RemoveReSendNeededEvent_open rser n resendEvt evt hc, storedEvents,
      List.append_nil]
    exact h
  | GetEventById _ => simpa [Op.apply, storedEvents] using h
  | GetProfileLocal _ => simpa [Op.apply, storedEvents] using h
  | GetFollowListLocal _ => simpa [Op.apply, storedEvents] using h
  | GetLatestEvents _ _ _ => simpa [Op.apply, storedEvents] using h
  | GetReSendNeededEventItr => simpa [Op.apply, storedEvents] using h

theorem HoldsStored_runOps (ser : Serializer) (hser : ser.RoundTrip) (rser : ResendSerializer)
    (ops : List Op) (n : DB) (stored : List Np2pEvent) (h : HoldsStored ser n stored) :
    HoldsStored ser (runOps ser rser n ops) (stored ++ storedEvents ops) := by
  induction ops generalizing n stored with
  | nil => simpa [runOps, storedEvents] using h
  | cons op ops ih =>
    rw [runOps_cons, storedEvents_cons, ← List.append_assoc]
    exact ih _ _ (HoldsStored_apply ser hser rser n stored h op)

/-- A Time Index whose members are events is the image of a list of events. -/
theorem SortedSet.exists_events (ser : Serializer) (z : SortedSet)
    (h : ∀ m ∈ z, ∃ e : Np2pEvent, m = timeMember ser e) :
    ∃ evs : List Np2pEvent, z = evs.map (timeMember ser) := by
  induction z with
  | nil => exact ⟨[], rfl⟩
  | cons x xs ih =>
    obtain ⟨e, he⟩ := h x (List.mem_cons_self _ _)
    obtain ⟨evs, hevs⟩ := ih (fun m hm => h m (List.mem_cons_of_mem _ hm))
    exact ⟨e :: evs, by rw [List.map_cons, ← he, ← hevs]⟩

theorem timeMember_injective (ser : Serializer) (hser : ser.RoundTrip) {a b : Np2pEvent}
    (h : timeMember ser a = timeMember ser b) : a = b := by
  have hv : ser.Encode a = ser.Encode b := congrArg SortedSetMember.Value h
  exact hser.injective hv

/-- The Time Index of a store reached from the empty store: it is the image
of a list of events that is ascending by score and has exactly the events
passed to `StoreEvent`. -/
theorem reachable_time_index (ser : Serializer) (hser : ser.RoundTrip) (rser : ResendSerializer)
    (ops : List Op) :
    (runOps ser rser DB.empty ops).closed = false ∧
    ∃ evs : List Np2pEvent,
      (runOps ser rser DB.empty ops).EventListTimeKey = evs.map (timeMember ser) ∧
      evs.Pairwise scoreLe ∧ ∀ e, e ∈ evs ↔ e ∈ storedEvents ops := by
  obtain ⟨hc, hasc, hmem, hall⟩ :=
    HoldsStored_runOps ser hser rser ops DB.empty [] (HoldsStored_empty ser)
  rw [List.nil_append] at hmem hall
  obtain ⟨evs, hevs⟩ := SortedSet.exists_events ser _ (fun m hm => by
    obtain ⟨e, _, he⟩ := hmem m hm
    exact ⟨e, he⟩)
  refine ⟨hc, evs, hevs, ?_, ?_⟩
  · rw [hevs] at hasc
    unfold SortedSet.Ascending at hasc
    rw [List.pairwise_map] at hasc
    exact hasc
  · intro e
    constructor
    · intro he
      have hm : timeMember ser e ∈ (runOps ser rser DB.empty ops).EventListTimeKey := by
        rw [hevs]; exact List.mem_map_of_mem _ he
      obtain ⟨e2, he2, heq⟩ := hmem _ hm
      rw [timeMember_injective ser hser heq]
      exact he2
    · intro he
      have hm := hall e he
      rw [hevs] at hm
      obtain ⟨e2, he2, heq⟩ := List.mem_map.1 hm
      rw [← timeMember_injective ser hser heq]
      exact he2

/-! ### C1: identity lookup after `StoreEvent` -/

/-- C1, counterexample: the identity lookup right after `StoreEvent` does not
return the stored event for every event and store.  An event stamped `-1` is
filed under score `-1` but looked up under score `2 ^ 64`, so the lookup yields
the nil event; and an event stored after another one with the same timestamp
is answered with that other event. -/
theorem GetEventById_after_StoreEvent_fails :
    refSerializer.RoundTrip ∧
    GetEventById refSerializer (StoreEvent refSerializer DB.empty eventBeforeEpoch)
      eventBeforeEpoch.Id = (none, true) ∧
    GetEventById refSerializer
      (StoreEvent refSerializer (StoreEvent refSerializer DB.empty eventAt5) otherAt5)
      otherAt5.Id = (some eventAt5, true) ∧
    eventAt5 ≠ otherAt5 :=
  ⟨refSerializer_roundTrip, by decide, by decide, by decide⟩

/-- C1, amended: on an open handle, for an event with a non-negative
timestamp and a store in which no Time Index member other than the serialized
event has the event's score, `GetEventById e.Id` after `StoreEvent e` returns
the event itself and found = true (given the round-trip law of the
serializer). -/
theorem GetEventById_after_StoreEvent (ser : Serializer) (hser : ser.RoundTrip) (n : DB)
    (e : Np2pEvent) (hopen : n.closed = false)
    (h0 : 0 ≤ e.Created_at) (h1 : e.Created_at < 2 ^ 63)
    (hfree : n.EventListTimeKey.ScoreFree (float64OfInt64 e.Created_at) (ser.Encode e)) :
    GetEventById ser (StoreEvent ser n e) e.Id = (some e, true) := by
  have hget : getEventByTimestampBytes ser (StoreEvent ser n e) (ConvInt64ToBytes e.Created_at)
      = some e := by
    apply getEventByTimestampBytes_hit ser hser _ _ e
    · rw [BigEndian_Uint64_ConvInt64ToBytes, float64_int64_eq_uint64 _ h0 h1]
    · rw [StoreEvent_open ser n e hopen]
      exact SortedSet.mem_ZAdd_self _ _ _
    · rw [StoreEvent_open ser n e hopen]
      exact SortedSet.ScoreFree_ZAdd _ _ _ hfree
    · rw [StoreEvent_open ser n e hopen]; exact hopen
  have hidx : (StoreEvent ser n e).EventIdxMapIdKey.Get e.Id
      = .ok (ConvInt64ToBytes e.Created_at) := by
    rw [StoreEvent_open ser n e hopen]
    exact BTree.Get_Put_self _ _ _
  have hcl : (StoreEvent ser n e).closed = false := by
    rw [StoreEvent_open ser n e hopen]; exact hopen
  simp only [GetEventById, DB.View, hcl, hidx, hget]
  rfl

/-- C1, witness: the amended lookup law on a store that already holds an
event stamped 5, for a new event stamped 20. -/
theorem GetEventById_after_StoreEvent_witness :
    refSerializer.RoundTrip ∧
    (StoreEvent refSerializer DB.empty eventAt5).closed = false ∧
    (0 ≤ eventAt20.Created_at ∧ eventAt20.Created_at < 2 ^ 63) ∧
    (StoreEvent refSerializer DB.empty eventAt5).EventListTimeKey.ScoreFree
      (float64OfInt64 eventAt20.Created_at) (refSerializer.Encode eventAt20) ∧
    GetEventById refSerializer
      (StoreEvent refSerializer (StoreEvent refSerializer DB.empty eventAt5) eventAt20)
      eventAt20.Id = (some eventAt20, true) :=
  ⟨refSerializer_roundTrip, by decide, by decide, by decide,
    GetEventById_after_StoreEvent refSerializer refSerializer_roundTrip
      (StoreEvent refSerializer DB.empty eventAt5) eventAt20 (by decide) (by decide) (by decide)
      (by decide)⟩

/-! ### C2: the unbounded range query -/

theorem scanTimeIndex_open (ser : Serializer) (n : DB) (h : n.closed = false) (a b : Float64) :
    scanTimeIndex ser n a b
      = (n.EventListTimeKey.ZRangeByScore a b).map (fun entry => ser.Decode entry.Value) := by
  simp [scanTimeIndex, DB.View, h]

theorem map_decode_timeMember (ser : Serializer) (hser : ser.RoundTrip) (l : List Np2pEvent) :
    (l.map (timeMember ser)).map (fun entry => ser.Decode entry.Value) = l.map some := by
  rw [List.map_map]
  apply List.map_congr_left
  intro e _
  simp [timeMember, hser e]

/-- A forward scan of a Time Index holding the events `evs`. -/
theorem scanTimeIndex_holding (ser : Serializer) (hser : ser.RoundTrip) (n : DB)
    (hopen : n.closed = false) (evs : List Np2pEvent)
    (hz : n.EventListTimeKey = evs.map (timeMember ser)) (a b : Float64) (hab : a ≤ b) :
    scanTimeIndex ser n a b
      = (evs.filter (fun e => decide (a ≤ float64OfInt64 e.Created_at ∧
          float64OfInt64 e.Created_at ≤ b))).map some := by
  rw [scanTimeIndex_open ser n hopen, hz, SortedSet.ZRangeByScore, if_pos hab, List.filter_map,
    map_decode_timeMember ser hser]
  rfl

/-- C2, counterexample: an event stamped `2 ^ 53 + 1` is filed under the score
`2 ^ 53`, so the unbounded query for the window `[2 ^ 53, 2 ^ 53]` returns it
although its timestamp lies outside the window. -/
theorem GetLatestEvents_unbounded_outside_window :
    GetLatestEvents refSerializer (StoreEvent refSerializer DB.empty eventOddAbove53)
      (2 ^ 53) (2 ^ 53) (-1) = [some eventOddAbove53] ∧
    ¬ ((2 : Int) ^ 53 ≤ eventOddAbove53.Created_at ∧ eventOddAbove53.Created_at ≤ 2 ^ 53) := by
  decide

/-- C2, amended: for `since ≤ until` and every store reached from the empty
store by the public operations, `GetLatestEvents since until (-1)` returns
exactly the events held in the Time Index (the events passed to `StoreEvent`)
whose score `float64(created_at)` lies in `[float64(since), float64(until)]`,
ordered by score ascending. -/
theorem GetLatestEvents_unbounded (ser : Serializer) (hser : ser.RoundTrip)
    (rser : ResendSerializer) (ops : List Op) (since until' : Int) (h : since ≤ until') :
    ∃ evs : List Np2pEvent,
      (runOps ser rser DB.empty ops).EventListTimeKey = evs.map (timeMember ser) ∧
      (∀ e, e ∈ evs ↔ e ∈ storedEvents ops) ∧
      GetLatestEvents ser (runOps ser rser DB.empty ops) since until' (-1)
        = (evs.filter (inScoreWindow since until')).map some ∧
      (evs.filter (inScoreWindow since until')).Pairwise scoreLe := by
  obtain ⟨hc, evs, hevs, hsorted, hmem⟩ := reachable_time_index ser hser rser ops
  refine ⟨evs, hevs, hmem, ?_, hsorted.sublist (List.filter_sublist _)⟩
  rw [GetLatestEvents, if_neg (by simp)]
  exact scanTimeIndex_holding ser hser _ hc evs hevs _ _ (float64OfInt64_mono h)

/-- C2, witness: the events stamped 30, 10, 40 and 20 are stored in this
order, with a profile pointer in between; the window `[15, 35]` returns the
events stamped 20 and 30, in this order. -/
theorem GetLatestEvents_unbounded_witness :
    refSerializer.RoundTrip ∧ (15 : Int) ≤ 35 ∧
    GetLatestEvents refSerializer
      (runOps refSerializer refResendSerializer DB.empty
        [Op.StoreEvent (mkEvent 3 7 30), Op.StoreEvent (mkEvent 1 7 10),
          Op.StoreProfile (mkEvent 1 7 10), Op.StoreEvent (mkEvent 4 7 40),
          Op.StoreEvent (mkEvent 2 7 20)]) 15 35 (-1)
      = [some (mkEvent 2 7 20), some (mkEvent 3 7 30)] ∧
    ∃ evs : List Np2pEvent,
      (runOps refSerializer refResendSerializer DB.empty
        [Op.StoreEvent (mkEvent 3 7 30), Op.StoreEvent (mkEvent 1 7 10),
          Op.StoreProfile (mkEvent 1 7 10), Op.StoreEvent (mkEvent 4 7 40),
          Op.StoreEvent (mkEvent 2 7 20)]).EventListTimeKey
        = evs.map (timeMember refSerializer) ∧
      (∀ e, e ∈ evs ↔ e ∈ storedEvents
        [Op.StoreEvent (mkEvent 3 7 30), Op.StoreEvent (mkEvent 1 7 10),
          Op.StoreProfile (mkEvent 1 7 10), Op.StoreEvent (mkEvent 4 7 40),
          Op.StoreEvent (mkEvent 2 7 20)]) ∧
      GetLatestEvents refSerializer
        (runOps refSerializer refResendSerializer DB.empty
          [Op.StoreEvent (mkEvent 3 7 30), Op.StoreEvent (mkEvent 1 7 10),
            Op.StoreProfile (mkEvent 1 7 10), Op.StoreEvent (mkEvent 4 7 40),
            Op.StoreEvent (mkEvent 2 7 20)]) 15 35 (-1)
        = (evs.filter (inScoreWindow 15 35)).map some ∧
      (evs.filter (inScoreWindow 15 35)).Pairwise scoreLe :=
  ⟨refSerializer_roundTrip, by decide, by decide,
    GetLatestEvents_unbounded refSerializer refSerializer_roundTrip refResendSerializer
      [Op.StoreEvent (mkEvent 3 7 30), Op.StoreEvent (mkEvent 1 7 10),
        Op.StoreProfile (mkEvent 1 7 10), Op.StoreEvent (mkEvent 4 7 40),
        Op.StoreEvent (mkEvent 2 7 20)] 15 35 (by decide)⟩

/-- The unbounded query on timestamps that are exactly representable: when
`since`, `until` and every stored timestamp lie within `± 2 ^ 53`, the result
on a store reached from the empty store is exactly the stored events with
`since ≤ created_at ≤ until`, ascending by `created_at`. -/
theorem GetLatestEvents_unbounded_exact (ser : Serializer) (hser : ser.RoundTrip)
    (rser : ResendSerializer) (ops : List Op)
    (hev : ∀ e ∈ storedEvents ops, -2 ^ 53 ≤ e.Created_at ∧ e.Created_at ≤ 2 ^ 53)
    (since until' : Int) (h : since ≤ until')
    (hs : -2 ^ 53 ≤ since) (hu : until' ≤ 2 ^ 53) :
    ∃ evs : List Np2pEvent,
      (∀ e, e ∈ evs ↔ e ∈ storedEvents ops) ∧
      GetLatestEvents ser (runOps ser rser DB.empty ops) since until' (-1)
        = (evs.filter (inTimeWindow since until')).map some ∧
      (evs.filter (inTimeWindow since until')).Pairwise
        (fun a b => a.Created_at ≤ b.Created_at) := by
  obtain ⟨hc, evs, hevs, hsorted, hmem⟩ := reachable_time_index ser hser rser ops
  have hev2 : ∀ e ∈ evs, -2 ^ 53 ≤ e.Created_at ∧ e.Created_at ≤ 2 ^ 53 :=
    fun e he => hev e ((hmem e).1 he)
  have hfilter : evs.filter (inScoreWindow since until') = evs.filter (inTimeWindow since until') := by
    apply List.filter_congr
    intro e he
    obtain ⟨h1, h2⟩ := hev2 e he
    simp only [inScoreWindow, inTimeWindow, float64OfInt64_exact e.Created_at h1 h2,
      float64OfInt64_exact since hs (by omega), float64OfInt64_exact until' (by omega) hu]
  refine ⟨evs, hmem, ?_, ?_⟩
  · rw [GetLatestEvents, if_neg (by simp), ← hfilter]
    exact scanTimeIndex_holding ser hser _ hc evs hevs _ _ (float64OfInt64_mono h)
  · have hs2 : evs.Pairwise (fun a b => a.Created_at ≤ b.Created_at) := by
      refine List.Pairwise.imp_of_mem ?_ hsorted
      intro a b ha hb hab
      obtain ⟨a1, a2⟩ := hev2 a ha
      obtain ⟨b1, b2⟩ := hev2 b hb
      unfold scoreLe at hab
      rwa [float64OfInt64_exact a.Created_at a1 a2, float64OfInt64_exact b.Created_at b1 b2] at hab
    exact hs2.sublist (List.filter_sublist _)

/-! ### C3: the count window over increasing timestamps -/

theorem SortedSet.insert_last (m : SortedSetMember) (z : SortedSet)
    (h : ∀ x ∈ z, x.Score ≤ m.Score) : SortedSet.insert m z = z ++ [m] := by
  induction z with
  | nil => rfl
  | cons y ys ih =>
    rw [SortedSet.insert, if_pos (h y (List.mem_cons_self _ _)),
      ih (fun x hx => h x (List.mem_cons_of_mem _ hx))]
    rfl

theorem SortedSet.ZAdd_last (z : SortedSet) (score : Float64) (val : Bytes)
    (hlt : ∀ x ∈ z, x.Score < score) (hval : ∀ x ∈ z, x.Value ≠ val) :
    z.ZAdd score val = z ++ [⟨score, val⟩] := by
  have hnot : ¬ (⟨score, val⟩ : SortedSetMember) ∈ z := fun hm => lt_irrefl _ (hlt _ hm)
  have hfil : z.filter (fun x => decide (x.Value ≠ val)) = z := by
    rw [List.filter_eq_self]
    intro x hx
    simpa using hval x hx
  rw [SortedSet.ZAdd, if_neg hnot, hfil]
  exact SortedSet.insert_last _ _ (fun x hx => le_of_lt (hlt x hx))

theorem storeAll_append (ser : Serializer) (n : DB) (evs : List Np2pEvent) (e : Np2pEvent) :
    storeAll ser n (evs ++ [e]) = StoreEvent ser (storeAll ser n evs) e := by
  simp [storeAll, List.foldl_append]

/-- Storing events with strictly increasing scores into the empty store files
them in order, in the Time Index and in the Ledger. -/
theorem storeAll_increasing (ser : Serializer) (hser : ser.RoundTrip) (evs : List Np2pEvent)
    (hinc : evs.Pairwise (fun a b => float64OfInt64 a.Created_at < float64OfInt64 b.Created_at)) :
    (storeAll ser DB.empty evs).closed = false ∧
    (storeAll ser DB.empty evs).EventListTimeKey = evs.map (timeMember ser) ∧
    (storeAll ser DB.empty evs).EventListKeyListForLimit
      = evs.map (fun e => ConvInt64ToBytes e.Created_at) := by
  induction evs using List.reverseRecOn with
  | nil => exact ⟨rfl, rfl, rfl⟩
  | append_singleton evs e ih =>
    rw [List.pairwise_append] at hinc
    obtain ⟨hevs, _, hlast⟩ := hinc
    obtain ⟨hc, hz, hl⟩ := ih hevs
    rw [storeAll_append, StoreEvent_open ser _ e hc]
    refine ⟨hc, ?_, ?_⟩
    · simp only [hz]
      rw [SortedSet.ZAdd_last]
      · simp [timeMember]
      · intro x hx
        obtain ⟨a, ha, rfl⟩ := List.mem_map.1 hx
        exact hlast a ha e (List.mem_singleton_self e)
      · intro x hx hval
        obtain ⟨a, ha, rfl⟩ := List.mem_map.1 hx
        have hae : a = e := hser.injective hval
        have := hlast a ha e (List.mem_singleton_self e)
        rw [hae] at this
        exact lt_irrefl _ this
    · simp only [hl, RPush]
      simp

theorem wrapInt64_of_range (x : Int) (h0 : -2 ^ 63 ≤ x) (h1 : x < 2 ^ 63) : wrapInt64 x = x := by
  unfold wrapInt64
  omega

/-- The tail-relative point read of the Ledger. -/
theorem LRange_from_tail (l : List Bytes) (limit : Int) (h1 : 1 ≤ limit)
    (h2 : limit < (l.length : Int)) :
    LRange l (-limit) (-limit) = .ok ((l.drop (l.length - limit.toNat)).take 1) := by
  have hlen : l.length ≠ 0 := by omega
  have hcb : checkBounds (-limit) (-limit) (l.length : Int)
      = .ok ((l.length : Int) + -limit, (l.length : Int) + -limit) := by
    unfold checkBounds
    have a1 : ¬ (0 ≤ -limit ∧ -limit < 0) := by omega
    simp only [a1, if_false]
    have a2 : ¬ (-limit < 0 ∧ 0 < -limit) := by omega
    simp only [a2, if_false]
    have a3 : -limit < 0 ∧ -limit < 0 := by omega
    simp only [a3, and_self, if_true]
    have a4 : ¬ ((l.length : Int) ≤ (l.length : Int) + -limit) := by omega
    simp only [a4, if_false]
    have a5 : ¬ ((l.length : Int) + -limit < (l.length : Int) + -limit) := by omega
    simp only [a5, if_false]
  rw [LRange, if_neg hlen, hcb]
  simp only
  have e1 : ((l.length : Int) + -limit).toNat = l.length - limit.toNat := by omega
  have e2 : ((l.length : Int) + -limit + 1).toNat - (l.length - limit.toNat) = 1 := by omega
  rw [e1, e2]

theorem MaxFloat64_ge : (2 : Int) ^ 53 ≤ MaxFloat64 := by decide

/-- C3, counterexample: the count window over strictly increasing timestamps
is not always the `limit` last insertions.  Over the timestamps `2 ^ 53`,
`2 ^ 53 + 1`, `2 ^ 53 + 2` the lower bound for `limit = 2` rounds down to
`2 ^ 53` and all three events come back; over the timestamps `-3`, `-2`, `-1`
the lower bound is read back as an unsigned number and nothing comes back. -/
theorem GetLatestEvents_limit_not_last :
    GetLatestEvents refSerializer
      (storeAll refSerializer DB.empty
        [mkEvent 1 7 (2 ^ 53), mkEvent 2 7 (2 ^ 53 + 1), mkEvent 3 7 (2 ^ 53 + 2)]) 0 0 2
      = [some (mkEvent 1 7 (2 ^ 53)), some (mkEvent 2 7 (2 ^ 53 + 1)),
         some (mkEvent 3 7 (2 ^ 53 + 2))] ∧
    GetLatestEvents refSerializer
      (storeAll refSerializer DB.empty [mkEvent 1 7 (-3), mkEvent 2 7 (-2), mkEvent 3 7 (-1)])
      0 0 2 = [] := by
  decide

/-- C3, amended: for events with strictly increasing timestamps, each in
`[0, 2 ^ 53]`, stored in order by `StoreEvent` into the empty store, and every
limit with `1 ≤ limit < n`, `GetLatestEvents since until limit` returns
exactly the `limit` most recently inserted events, in ascending `created_at`
order. -/
theorem GetLatestEvents_limit (ser : Serializer) (hser : ser.RoundTrip) (evs : List Np2pEvent)
    (hinc : evs.Pairwise (fun a b => a.Created_at < b.Created_at))
    (hrange : ∀ e ∈ evs, 0 ≤ e.Created_at ∧ e.Created_at ≤ 2 ^ 53)
    (since until' limit : Int) (h1 : 1 ≤ limit) (h2 : limit < (evs.length : Int))
    (h64 : limit < 2 ^ 63) :
    GetLatestEvents ser (storeAll ser DB.empty evs) since until' limit
      = (evs.drop (evs.length - limit.toNat)).map some ∧
    (evs.drop (evs.length - limit.toNat)).length = limit.toNat ∧
    (evs.drop (evs.length - limit.toNat)).Pairwise (fun a b => a.Created_at < b.Created_at) := by
  have hexact : ∀ e ∈ evs, float64OfInt64 e.Created_at = e.Created_at := fun e he =>
    float64OfInt64_exact _ (by have := (hrange e he).1; omega) (hrange e he).2
  have hinc2 : evs.Pairwise
      (fun a b => float64OfInt64 a.Created_at < float64OfInt64 b.Created_at) := by
    refine List.Pairwise.imp_of_mem ?_ hinc
    intro a b ha hb hab
    rw [hexact a ha, hexact b hb]
    exact hab
  obtain ⟨hc, hz, hl⟩ := storeAll_increasing ser hser evs hinc2
  refine ⟨?_, by rw [List.length_drop]; omega, hinc.sublist (List.drop_sublist _ _)⟩
  -- split the list at the `limit`-th event from the tail
  have hk : evs.length - limit.toNat < evs.length := by omega
  obtain ⟨ek, rest, hdrop⟩ : ∃ ek rest, evs.drop (evs.length - limit.toNat) = ek :: rest := by
    cases hd : evs.drop (evs.length - limit.toNat) with
    | nil =>
      have := congrArg List.length hd
      rw [List.length_drop] at this
      simp at this
      omega
    | cons a as => exact ⟨a, as, rfl⟩
  have hsplit : evs = evs.take (evs.length - limit.toNat) ++ ek :: rest := by
    rw [← hdrop, List.take_append_drop]
  have hek : ek ∈ evs := by rw [hsplit]; simp
  -- the lower bound read from the Ledger
  have hbound : limitLowerBound (storeAll ser DB.empty evs) limit
      = .ok (float64OfInt64 ek.Created_at) := by
    have hlen : ((evs.map (fun e => ConvInt64ToBytes e.Created_at)).length : Int)
        = (evs.length : Int) := by simp
    have hlr := LRange_from_tail (evs.map (fun e => ConvInt64ToBytes e.Created_at)) limit h1
      (by rw [hlen]; exact h2)
    rw [List.length_map, ← List.map_drop, hdrop] at hlr
    simp only [limitLowerBound, DB.View, hc, hl, LSize]
    have hnle : ¬ ((evs.length : Int) ≤ limit) := by omega
    rw [hlen, if_neg hnle]
    have hw : wrapInt64 (-1 * limit) = -limit := by
      rw [wrapInt64_of_range _ (by omega) (by omega)]; omega
    rw [hw, hlr]
    simp only [List.map_cons, List.take_succ_cons, List.take_zero, ExtractUint64FromBytes]
    rw [BigEndian_Uint64_ConvInt64ToBytes,
      float64_int64_eq_uint64 _ (hrange ek hek).1 (by have := (hrange ek hek).2; omega)]
    rfl
  have hmax : float64OfInt64 ek.Created_at ≤ MaxFloat64 := by
    rw [hexact ek hek]
    exact le_trans (hrange ek hek).2 MaxFloat64_ge
  have hne : limit ≠ -1 := by omega
  rw [GetLatestEvents, if_pos hne, hbound]
  simp only
  rw [scanTimeIndex_holding ser hser _ hc evs hz _ _ hmax, hdrop]
  congr 1
  -- the scan keeps exactly the events from `ek` on
  have hpw := hinc
  rw [hsplit, List.pairwise_append] at hpw
  obtain ⟨_, hright, hcross⟩ := hpw
  have hrest : ∀ b ∈ rest, ek.Created_at < b.Created_at := (List.pairwise_cons.1 hright).1
  conv_lhs => rw [hsplit]
  rw [List.filter_append]
  have hleft : (evs.take (evs.length - limit.toNat)).filter
      (fun e => decide (float64OfInt64 ek.Created_at ≤ float64OfInt64 e.Created_at ∧
        float64OfInt64 e.Created_at ≤ MaxFloat64)) = [] := by
    rw [List.filter_eq_nil_iff]
    intro a ha hd
    have hae : a ∈ evs := List.mem_of_mem_take ha
    have h3 := (of_decide_eq_true hd).1
    rw [hexact ek hek, hexact a hae] at h3
    exact absurd (hcross a ha ek (List.mem_cons_self _ _)) (not_lt.2 h3)
  have hrightf : (ek :: rest).filter
      (fun e => decide (float64OfInt64 ek.Created_at ≤ float64OfInt64 e.Created_at ∧
        float64OfInt64 e.Created_at ≤ MaxFloat64)) = ek :: rest := by
    rw [List.filter_eq_self]
    intro b hb
    have hbe : b ∈ evs := by rw [hsplit]; exact List.mem_append_right _ hb
    have hle : ek.Created_at ≤ b.Created_at := by
      rcases List.mem_cons.1 hb with h | h
      · rw [h]
      · exact le_of_lt (hrest b h)
    have hbmax : float64OfInt64 b.Created_at ≤ MaxFloat64 := by
      rw [hexact b hbe]
      exact le_trans (hrange b hbe).2 MaxFloat64_ge
    apply decide_eq_true
    refine ⟨?_, hbmax⟩
    rw [hexact ek hek, hexact b hbe]
    exact hle
  rw [hleft, hrightf, List.nil_append]

/-- C3, witness: the five timestamps 1 to 5 and the limit 3. -/
theorem GetLatestEvents_limit_witness :
    refSerializer.RoundTrip ∧
    [mkEvent 1 7 1, mkEvent 2 7 2, mkEvent 3 7 3, mkEvent 4 7 4, mkEvent 5 7 5].Pairwise
      (fun a b => a.Created_at < b.Created_at) ∧
    (∀ e ∈ [mkEvent 1 7 1, mkEvent 2 7 2, mkEvent 3 7 3, mkEvent 4 7 4, mkEvent 5 7 5],
      0 ≤ e.Created_at ∧ e.Created_at ≤ 2 ^ 53) ∧
    ((1 : Int) ≤ 3 ∧ (3 : Int) < 5 ∧ (3 : Int) < 2 ^ 63) ∧
    (GetLatestEvents refSerializer
        (storeAll refSerializer DB.empty
          [mkEvent 1 7 1, mkEvent 2 7 2, mkEvent 3 7 3, mkEvent 4 7 4, mkEvent 5 7 5]) 0 0 3
      = ([mkEvent 1 7 1, mkEvent 2 7 2, mkEvent 3 7 3, mkEvent 4 7 4, mkEvent 5 7 5].drop
          (5 - (3 : Int).toNat)).map some ∧
     ([mkEvent 1 7 1, mkEvent 2 7 2, mkEvent 3 7 3, mkEvent 4 7 4, mkEvent 5 7 5].drop
          (5 - (3 : Int).toNat)).length = (3 : Int).toNat ∧
     ([mkEvent 1 7 1, mkEvent 2 7 2, mkEvent 3 7 3, mkEvent 4 7 4, mkEvent 5 7 5].drop
          (5 - (3 : Int).toNat)).Pairwise (fun a b => a.Created_at < b.Created_at)) :=
  ⟨refSerializer_roundTrip, by decide, by decide, by decide,
    GetLatestEvents_limit refSerializer refSerializer_roundTrip
      [mkEvent 1 7 1, mkEvent 2 7 2, mkEvent 3 7 3, mkEvent 4 7 4, mkEvent 5 7 5]
      (by decide) (by decide) 0 0 3 (by decide) (by decide) (by decide)⟩

/-! ### C4, C5: the count-bounded query -/

/-- With a Ledger no longer than the limit, the scan starts at score `0`. -/
theorem limitLowerBound_short_ledger (n : DB) (hopen : n.closed = false) (limit : Int)
    (h : LSize n.EventListKeyListForLimit ≤ limit) : limitLowerBound n limit = .ok 0 := by
  simp [limitLowerBound, DB.View, hopen, h]

/-- C4, the code at the failing input: after `StoreEvent` of an event stamped
`-1` the Time Index holds that event and the Ledger has length `1 ≤ 10`, the
lower bound computed for `limit = 10` is the score `0`, and
`GetLatestEvents _ _ 10` returns the empty list instead of the held event. -/
theorem GetLatestEvents_short_ledger_drops_negative :
    (StoreEvent refSerializer DB.empty eventBeforeEpoch).EventListTimeKey
      = [timeMember refSerializer eventBeforeEpoch] ∧
    LSize (StoreEvent refSerializer DB.empty eventBeforeEpoch).EventListKeyListForLimit ≤ 10 ∧
    limitLowerBound (StoreEvent refSerializer DB.empty eventBeforeEpoch) 10 = .ok 0 ∧
    GetLatestEvents refSerializer (StoreEvent refSerializer DB.empty eventBeforeEpoch) 0 0 10
      = [] := by
  decide

/-- C5: with a limit other than `-1` the result of `GetLatestEvents` is the
same for any two pairs of `since` and `until`. -/
theorem GetLatestEvents_limit_ignores_window (ser : Serializer) (n : DB) (limit : Int)
    (since1 until1 since2 until2 : Int) (h : limit ≠ -1) :
    GetLatestEvents ser n since1 until1 limit = GetLatestEvents ser n since2 until2 limit := by
  simp only [GetLatestEvents, if_pos h]

/-- C5, witness: the limit 3 over five stored events, for the windows
`[0, 0]` and `[-7, 100]`. -/
theorem GetLatestEvents_limit_ignores_window_witness :
    (3 : Int) ≠ -1 ∧
    GetLatestEvents refSerializer
        (storeAll refSerializer DB.empty
          [mkEvent 1 7 1, mkEvent 2 7 2, mkEvent 3 7 3, mkEvent 4 7 4, mkEvent 5 7 5]) 0 0 3
      = GetLatestEvents refSerializer
        (storeAll refSerializer DB.empty
          [mkEvent 1 7 1, mkEvent 2 7 2, mkEvent 3 7 3, mkEvent 4 7 4, mkEvent 5 7 5])
        (-7) 100 3 :=
  ⟨by decide, GetLatestEvents_limit_ignores_window refSerializer _ 3 0 0 (-7) 100 (by decide)⟩

/-! ### C6: the iterator -/

theorem NutsDBItr.Next_of_lt {α : Type} (c : Int) (es : List α) (h : c < (es.length : Int)) :
    NutsDBItr.Next ⟨c, es⟩ = (⟨c + 1, es⟩, true) := by
  simp [NutsDBItr.Next, h]

theorem NutsDBItr.advance_eq {α : Type} (k : Nat) (c : Int) (es : List α)
    (h : c + k ≤ (es.length : Int)) :
    NutsDBItr.advance k ⟨c, es⟩ = ⟨c + k, es⟩ := by
  induction k generalizing c with
  | zero => simp [NutsDBItr.advance]
  | succ k ih =>
    push_cast at h
    rw [NutsDBItr.advance, NutsDBItr.Next_of_lt c es (by omega)]
    simp only
    rw [ih (c + 1) (by omega)]
    congr 1
    push_cast
    omega

/-- C6, the code on every list: after the `n` calls of `Next` that walk a list
of `n` elements, one more call still returns `true`; it moves the cursor to
the index `n`, one past the last element, where `Value` indexes out of range.
`Next` therefore returns `true` `n + 1` times, not `n` times. -/
theorem NutsDBItr_Next_true_past_the_end {α : Type} (elems : List α) :
    (((NewNutsDBItr elems).advance elems.length).Next).2 = true ∧
    (((NewNutsDBItr elems).advance elems.length).Next).1.curIdx = (elems.length : Int) ∧
    (((NewNutsDBItr elems).advance elems.length).Next).1.Value = none := by
  have h := NutsDBItr.advance_eq elems.length (-1) elems (by omega)
  rw [NewNutsDBItr, h, NutsDBItr.Next_of_lt _ _ (by omega)]
  refine ⟨rfl, by simp, ?_⟩
  have h0 : (0 : Int) ≤ -1 + (elems.length : Int) + 1 := by omega
  have h1 : (-1 + (elems.length : Int) + 1).toNat = elems.length := by omega
  simp only [NutsDBItr.Value, h0, if_true, h1]
  simp

/-- The first `n` calls of `Next` on a list of `n` elements return `true`, and
`Value` after the call number `i + 1` is the element at index `i`. -/
theorem NutsDBItr_first_calls {α : Type} (elems : List α) (i : Nat) (hi : i < elems.length) :
    (((NewNutsDBItr elems).advance i).Next).2 = true ∧
    (((NewNutsDBItr elems).advance i).Next).1.Value = elems.get? i := by
  have h := NutsDBItr.advance_eq i (-1) elems (by omega)
  rw [NewNutsDBItr, h, NutsDBItr.Next_of_lt _ _ (by omega)]
  refine ⟨rfl, ?_⟩
  have h0 : (0 : Int) ≤ -1 + (i : Int) + 1 := by omega
  have h1 : (-1 + (i : Int) + 1).toNat = i := by omega
  simp only [NutsDBItr.Value, h0, if_true, h1]

/-! ### C7, C8: lookups that miss -/

/-- An identity entry whose timestamp has no member in the Time Index is
answered with the nil event and the flag `true`. -/
theorem GetEventById_drift (ser : Serializer) (n : DB) (hopen : n.closed = false)
    (evtId val : Bytes) (hget : n.EventIdxMapIdKey.Get evtId = .ok val)
    (hnone : ∀ m ∈ n.EventListTimeKey, m.Score ≠ float64OfUint64 (BigEndian_Uint64 val)) :
    GetEventById ser n evtId = (none, true) := by
  simp only [GetEventById, DB.View, hopen, hget, getEventByTimestampBytes_miss ser n val hnone]
  rfl

/-- C7, the code at the failing input: for an identifier whose Identity Index
entry points at a timestamp without a Time Index member, `GetEventById`
returns the nil event with found = true, whereas an identifier that was never
stored gets found = false.  The drifted state is also reached by `StoreEvent`
of an event stamped `-1`. -/
theorem GetEventById_drift_reports_found :
    driftedStore.EventIdxMapIdKey.Get (key32 9) = .ok (ConvInt64ToBytes 5) ∧
    driftedStore.EventListTimeKey = [] ∧
    GetEventById refSerializer driftedStore (key32 9) = (none, true) ∧
    GetEventById refSerializer driftedStore (key32 8) = (none, false) ∧
    GetEventById refSerializer (StoreEvent refSerializer DB.empty eventBeforeEpoch)
      eventBeforeEpoch.Id = (none, true) := by
  decide

/-- C8: a key absent from its index is reported not found: `GetEventById`
returns the nil event with found = false, and `GetProfileLocal` and
`GetFollowListLocal` return the nil event. -/
theorem lookups_of_absent_keys (ser : Serializer) (n : DB) (evtId : Bytes) (author follower : Nat)
    (hid : n.EventIdxMapIdKey.Absent evtId)
    (hprof : n.ProfEvtIdxMap.Absent (ConvUint64ToBytes author))
    (hfollow : n.FollowListEvtIdxMap.Absent (ConvUint64ToBytes follower)) :
    GetEventById ser n evtId = (none, false) ∧
    GetProfileLocal ser n author = none ∧
    GetFollowListLocal ser n follower = none := by
  refine ⟨?_, ?_, ?_⟩
  · simp only [GetEventById, DB.View, BTree.Get_of_Absent _ _ hid]
    split_ifs <;> rfl
  · simp only [GetProfileLocal, DB.View, BTree.Get_of_Absent _ _ hprof]
    split_ifs <;> rfl
  · simp only [GetFollowListLocal, DB.View, BTree.Get_of_Absent _ _ hfollow]
    split_ifs <;> rfl

/-- C8, witness: a store holding one event, one profile pointer and one
follow-list pointer of author 7, queried for another identifier and for
author 8. -/
theorem lookups_of_absent_keys_witness :
    (StoreFollowList (StoreProfile (StoreEvent refSerializer DB.empty eventAt5) eventAt5)
      eventAt5).EventIdxMapIdKey.Absent (key32 9) ∧
    (StoreFollowList (StoreProfile (StoreEvent refSerializer DB.empty eventAt5) eventAt5)
      eventAt5).ProfEvtIdxMap.Absent (ConvUint64ToBytes 8) ∧
    (StoreFollowList (StoreProfile (StoreEvent refSerializer DB.empty eventAt5) eventAt5)
      eventAt5).FollowListEvtIdxMap.Absent (ConvUint64ToBytes 8) ∧
    (GetEventById refSerializer
        (StoreFollowList (StoreProfile (StoreEvent refSerializer DB.empty eventAt5) eventAt5)
          eventAt5) (key32 9) = (none, false) ∧
     GetProfileLocal refSerializer
        (StoreFollowList (StoreProfile (StoreEvent refSerializer DB.empty eventAt5) eventAt5)
          eventAt5) 8 = none ∧
     GetFollowListLocal refSerializer
        (StoreFollowList (StoreProfile (StoreEvent refSerializer DB.empty eventAt5) eventAt5)
          eventAt5) 8 = none) :=
  ⟨by decide, by decide, by decide,
    lookups_of_absent_keys refSerializer _ (key32 9) 8 8 (by decide) (by decide) (by decide)⟩

/-! ### C9, C10: the latest-profile and latest-follow-list pointers -/

theorem BigEndian_PutUint64_Uint64 (b : Bytes) (hlen : b.length = 8) (hb : ∀ x ∈ b, x < 256) :
    BigEndian_PutUint64 (BigEndian_Uint64 b) = b := by
  match b, hlen with
  | [b0, b1, b2, b3, b4, b5, b6, b7], _ =>
    have h0 := hb b0 (by simp)
    have h1 := hb b1 (by simp)
    have h2 := hb b2 (by simp)
    have h3 := hb b3 (by simp)
    have h4 := hb b4 (by simp)
    have h5 := hb b5 (by simp)
    have h6 := hb b6 (by simp)
    have h7 := hb b7 (by simp)
    simp only [BigEndian_Uint64, BigEndian_PutUint64, List.take, List.foldl, List.cons.injEq,
      and_true]
    refine ⟨?_, ?_, ?_, ?_, ?_, ?_, ?_, ?_⟩ <;> omega

theorem BigEndian_Uint64_lt (b : Bytes) (hlen : b.length = 8) (hb : ∀ x ∈ b, x < 256) :
    BigEndian_Uint64 b < 2 ^ 64 := by
  rw [← BigEndian_PutUint64_Uint64 b hlen hb, BigEndian_Uint64_PutUint64]
  exact Nat.mod_lt _ (by norm_num)

/-- The author key written by `StoreProfile` is the key `GetProfileLocal`
reads for the 64-bit author. -/
theorem ConvUint64ToBytes_authorKey (evt : Np2pEvent) (hlen : 8 ≤ evt.Pubkey.length)
    (hb : ∀ x ∈ evt.Pubkey, x < 256) :
    ConvUint64ToBytes (authorKey evt) = pubkeyLow8 evt.Pubkey := by
  have h8 : (pubkeyLow8 evt.Pubkey).length = 8 := by
    rw [pubkeyLow8, List.length_drop]; omega
  have hb8 : ∀ x ∈ pubkeyLow8 evt.Pubkey, x < 256 := fun x hx =>
    hb x (List.mem_of_mem_drop hx)
  rw [ConvUint64ToBytes, authorKey, Nat.mod_eq_of_lt (BigEndian_Uint64_lt _ h8 hb8),
    BigEndian_PutUint64_Uint64 _ h8 hb8]

/-- C9, counterexample: after storing both profile events and both pointers,
`GetProfileLocal` does not always return the later profile.  For the
timestamps `-2` and `-1` it returns the nil event; for the timestamps `2 ^ 53`
and `2 ^ 53 + 1`, which share the score `2 ^ 53`, it returns the earlier
profile. -/
theorem GetProfileLocal_not_latest :
    GetProfileLocal refSerializer
      (StoreProfile (StoreProfile
        (storeAll refSerializer DB.empty [mkEvent 1 7 (-2), mkEvent 2 7 (-1)])
        (mkEvent 1 7 (-2))) (mkEvent 2 7 (-1)))
      (authorKey (mkEvent 2 7 (-1))) = none ∧
    GetProfileLocal refSerializer
      (StoreProfile (StoreProfile
        (storeAll refSerializer DB.empty [mkEvent 1 7 (2 ^ 53), mkEvent 2 7 (2 ^ 53 + 1)])
        (mkEvent 1 7 (2 ^ 53))) (mkEvent 2 7 (2 ^ 53 + 1)))
      (authorKey (mkEvent 2 7 (2 ^ 53 + 1))) = some (mkEvent 1 7 (2 ^ 53)) := by
  decide

/-- C9, amended: for two profile events `p1`, `p2` of the same author with
`p2.created_at > p1.created_at`, both held in the Time Index of an open store,
where `p2.created_at` is non-negative and no Time Index member other than the
serialized `p2` has the score of `p2`, after `StoreProfile p1` followed by
`StoreProfile p2` the call `GetProfileLocal author` returns `p2`. -/
theorem GetProfileLocal_latest (ser : Serializer) (hser : ser.RoundTrip) (n : DB)
    (p1 p2 : Np2pEvent) (hopen : n.closed = false)
    (_hsame : p1.Pubkey = p2.Pubkey) (_hlater : p1.Created_at < p2.Created_at)
    (hlen : 8 ≤ p2.Pubkey.length) (hbytes : ∀ x ∈ p2.Pubkey, x < 256)
    (h0 : 0 ≤ p2.Created_at) (h63 : p2.Created_at < 2 ^ 63)
    (_hp1 : timeMember ser p1 ∈ n.EventListTimeKey)
    (hp2 : timeMember ser p2 ∈ n.EventListTimeKey)
    (hfree : n.EventListTimeKey.ScoreFree (float64OfInt64 p2.Created_at) (ser.Encode p2)) :
    GetProfileLocal ser (StoreProfile (StoreProfile n p1) p2) (authorKey p2) = some p2 := by
  have hc1 : (StoreProfile n p1).closed = false := by
    rw [StoreProfile_open n p1 hopen]; exact hopen
  have hs : StoreProfile (StoreProfile n p1) p2
      = { n with
          ProfEvtIdxMap :=
            (BTree.Put
              (BTree.Put n.ProfEvtIdxMap (pubkeyLow8 p1.Pubkey) (ConvInt64ToBytes p1.Created_at))
              (pubkeyLow8 p2.Pubkey) (ConvInt64ToBytes p2.Created_at)) } := by
    rw [StoreProfile_open _ p2 hc1, StoreProfile_open n p1 hopen]
  have hget : getEventByTimestampBytes ser (StoreProfile (StoreProfile n p1) p2)
      (ConvInt64ToBytes p2.Created_at) = some p2 := by
    apply getEventByTimestampBytes_hit ser hser _ _ p2
    · rw [BigEndian_Uint64_ConvInt64ToBytes, float64_int64_eq_uint64 _ h0 h63]
    · rw [hs]; exact hp2
    · rw [hs]; exact hfree
    · rw [hs]; exact hopen
  have hidx : (StoreProfile (StoreProfile n p1) p2).ProfEvtIdxMap.Get
      (ConvUint64ToBytes (authorKey p2)) = .ok (ConvInt64ToBytes p2.Created_at) := by
    rw [ConvUint64ToBytes_authorKey p2 hlen hbytes, hs]
    exact BTree.Get_Put_self _ _ _
  have hcl : (StoreProfile (StoreProfile n p1) p2).closed = false := by
    rw [hs]; exact hopen
  simp only [GetProfileLocal, DB.View, hcl, hidx, hget]
  rfl

/-- C9, witness: the profiles stamped 10 and 20 of author 7. -/
theorem GetProfileLocal_latest_witness :
    refSerializer.RoundTrip ∧
    (storeAll refSerializer DB.empty [mkEvent 1 7 10, mkEvent 2 7 20]).closed = false ∧
    (mkEvent 1 7 10).Pubkey = (mkEvent 2 7 20).Pubkey ∧
    (mkEvent 1 7 10).Created_at < (mkEvent 2 7 20).Created_at ∧
    8 ≤ (mkEvent 2 7 20).Pubkey.length ∧
    (∀ x ∈ (mkEvent 2 7 20).Pubkey, x < 256) ∧
    (0 ≤ (mkEvent 2 7 20).Created_at ∧ (mkEvent 2 7 20).Created_at < 2 ^ 63) ∧
    timeMember refSerializer (mkEvent 1 7 10) ∈
      (storeAll refSerializer DB.empty [mkEvent 1 7 10, mkEvent 2 7 20]).EventListTimeKey ∧
    timeMember refSerializer (mkEvent 2 7 20) ∈
      (storeAll refSerializer DB.empty [mkEvent 1 7 10, mkEvent 2 7 20]).EventListTimeKey ∧
    (storeAll refSerializer DB.empty [mkEvent 1 7 10, mkEvent 2 7 20]).EventListTimeKey.ScoreFree
      (float64OfInt64 (mkEvent 2 7 20).Created_at) (refSerializer.Encode (mkEvent 2 7 20)) ∧
    GetProfileLocal refSerializer
      (StoreProfile (StoreProfile
        (storeAll refSerializer DB.empty [mkEvent 1 7 10, mkEvent 2 7 20])
        (mkEvent 1 7 10)) (mkEvent 2 7 20))
      (authorKey (mkEvent 2 7 20)) = some (mkEvent 2 7 20) :=
  ⟨refSerializer_roundTrip, by decide, by decide, by decide, by decide, by decide, by decide,
    by decide, by decide, by decide,
    GetProfileLocal_latest refSerializer refSerializer_roundTrip
      (storeAll refSerializer DB.empty [mkEvent 1 7 10, mkEvent 2 7 20])
      (mkEvent 1 7 10) (mkEvent 2 7 20) (by decide) (by decide) (by decide) (by decide)
      (by decide) (by decide) (by decide) (by decide) (by decide) (by decide)⟩

theorem int64OfUint64_uint64OfInt64 (x : Int) (h0 : -2 ^ 63 ≤ x) (h1 : x < 2 ^ 63) :
    int64OfUint64 (uint64OfInt64 x) = x := by
  unfold int64OfUint64 wrapInt64 uint64OfInt64
  omega

theorem pubkeyLow8_append (hi lo : Bytes) (hlo : lo.length = 8) : pubkeyLow8 (hi ++ lo) = lo := by
  have h : (hi ++ lo).length - 8 = hi.length := by
    rw [List.length_append, hlo]; omega
  rw [pubkeyLow8, h, List.drop_left]

/-- C10: on an open store, for an event whose public key ends in the 8 bytes
`lo`, after `StoreProfile evt` (respectively `StoreFollowList evt`) the
Latest-Profile (respectively Latest-Follow-List) index holds exactly one entry
for the key `lo`, its value is the serialized `evt.Created_at` whatever was
stored before (and reads back as `evt.Created_at`), and the entries of every
other key are unchanged. -/
theorem StoreProfile_StoreFollowList_overwrite (n : DB) (evt : Np2pEvent) (hi lo : Bytes)
    (hopen : n.closed = false)
    (hpk : evt.Pubkey = hi ++ lo) (hlo : lo.length = 8)
    (h64 : -2 ^ 63 ≤ evt.Created_at ∧ evt.Created_at < 2 ^ 63) :
    ((StoreProfile n evt).ProfEvtIdxMap.entriesOf lo = [(lo, ConvInt64ToBytes evt.Created_at)] ∧
      ∀ key, key ≠ lo →
        (StoreProfile n evt).ProfEvtIdxMap.entriesOf key = n.ProfEvtIdxMap.entriesOf key) ∧
    ((StoreFollowList n evt).FollowListEvtIdxMap.entriesOf lo
        = [(lo, ConvInt64ToBytes evt.Created_at)] ∧
      ∀ key, key ≠ lo →
        (StoreFollowList n evt).FollowListEvtIdxMap.entriesOf key
          = n.FollowListEvtIdxMap.entriesOf key) ∧
    int64OfUint64 (BigEndian_Uint64 (ConvInt64ToBytes evt.Created_at)) = evt.Created_at := by
  have hkey : pubkeyLow8 evt.Pubkey = lo := by rw [hpk]; exact pubkeyLow8_append hi lo hlo
  refine ⟨⟨?_, ?_⟩, ⟨?_, ?_⟩, ?_⟩
  · rw [StoreProfile_open n evt hopen, hkey]
    exact BTree.entriesOf_Put_self _ _ _
  · intro key hne
    rw [StoreProfile_open n evt hopen, hkey]
    exact BTree.entriesOf_Put_other _ _ _ _ hne
  · rw [StoreFollowList_open n evt hopen, hkey]
    exact BTree.entriesOf_Put_self _ _ _
  · intro key hne
    rw [StoreFollowList_open n evt hopen, hkey]
    exact BTree.entriesOf_Put_other _ _ _ _ hne
  · rw [BigEndian_Uint64_ConvInt64ToBytes]
    exact int64OfUint64_uint64OfInt64 _ h64.1 h64.2

/-- C10, witness: the author with the public key 0 to 31 already points at
the timestamp 50 in both indexes, next to the pointer of author 7, and stores
an event stamped 20: the key is the bytes 24 to 31, its value becomes the 8
bytes of 20, and the entry of author 7 stays. -/
theorem StoreProfile_StoreFollowList_overwrite_witness :
    (StoreFollowList (StoreProfile (StoreFollowList (StoreProfile DB.empty (mkEvent 1 7 5))
      (mkEvent 1 7 5)) (mkEventRangeKey 2 50)) (mkEventRangeKey 2 50)).closed = false ∧
    ((mkEventRangeKey 3 20).Pubkey = List.range 24 ++ [24, 25, 26, 27, 28, 29, 30, 31] ∧
      [24, 25, 26, 27, 28, 29, 30, 31].length = 8) ∧
    (-2 ^ 63 ≤ (mkEventRangeKey 3 20).Created_at ∧ (mkEventRangeKey 3 20).Created_at < 2 ^ 63) ∧
    (StoreProfile (StoreFollowList (StoreProfile (StoreFollowList (StoreProfile DB.empty
        (mkEvent 1 7 5)) (mkEvent 1 7 5)) (mkEventRangeKey 2 50)) (mkEventRangeKey 2 50))
        (mkEventRangeKey 3 20)).ProfEvtIdxMap
      = [([24, 25, 26, 27, 28, 29, 30, 31], [0, 0, 0, 0, 0, 0, 0, 20]),
         ([0, 0, 0, 0, 0, 0, 0, 7], [0, 0, 0, 0, 0, 0, 0, 5])] ∧
    (StoreFollowList (StoreFollowList (StoreProfile (StoreFollowList (StoreProfile DB.empty
        (mkEvent 1 7 5)) (mkEvent 1 7 5)) (mkEventRangeKey 2 50)) (mkEventRangeKey 2 50))
        (mkEventRangeKey 3 20)).FollowListEvtIdxMap
      = [([24, 25, 26, 27, 28, 29, 30, 31], [0, 0, 0, 0, 0, 0, 0, 20]),
         ([0, 0, 0, 0, 0, 0, 0, 7], [0, 0, 0, 0, 0, 0, 0, 5])] ∧
    (StoreProfile (StoreFollowList (StoreProfile (StoreFollowList (StoreProfile DB.empty
        (mkEvent 1 7 5)) (mkEvent 1 7 5)) (mkEventRangeKey 2 50)) (mkEventRangeKey 2 50))
        (mkEventRangeKey 3 20)).ProfEvtIdxMap.entriesOf [24, 25, 26, 27, 28, 29, 30, 31]
      = [([24, 25, 26, 27, 28, 29, 30, 31], ConvInt64ToBytes (mkEventRangeKey 3 20).Created_at)] :=
  ⟨by decide, by decide, by decide, by decide, by decide,
    (StoreProfile_StoreFollowList_overwrite
      (StoreFollowList (StoreProfile (StoreFollowList (StoreProfile DB.empty (mkEvent 1 7 5))
        (mkEvent 1 7 5)) (mkEventRangeKey 2 50)) (mkEventRangeKey 2 50))
      (mkEventRangeKey 3 20) (List.range 24) [24, 25, 26, 27, 28, 29, 30, 31]
      (by decide) (by decide) (by decide) (by decide)).1.1⟩

/-! ### C11, C12, C13: the resend queue -/

theorem MaxFloat64_nonneg : (0 : Float64) ≤ MaxFloat64 := by decide

theorem GetReSendNeededEventItr_open (rser : ResendSerializer) (n : DB) (h : n.closed = false) :
    GetReSendNeededEventItr rser n = some (NewNutsDBItr
      ((n.ReSendNeededEvtList.filter
        (fun x => decide (0 ≤ x.Score ∧ x.Score ≤ MaxFloat64))).map
        (fun entry => rser.Decode entry.Value))) := by
  simp [GetReSendNeededEventItr, DB.View, h, SortedSet.ZRangeByScore, MaxFloat64_nonneg]

theorem SortedSet.mem_ZRem (z : SortedSet) (val : Bytes) (x : SortedSetMember) :
    x ∈ z.ZRem val ↔ x ∈ z ∧ x.Value ≠ val := by
  simp [SortedSet.ZRem, List.mem_filter]

theorem NutsDBItr.Next_elems {α : Type} (n : NutsDBItr α) : n.Next.1.elems = n.elems := by
  unfold NutsDBItr.Next
  split_ifs <;> rfl

theorem NutsDBItr.advance_elems {α : Type} (k : Nat) (n : NutsDBItr α) :
    (n.advance k).elems = n.elems := by
  induction k generalizing n with
  | zero => rfl
  | succ k ih => rw [NutsDBItr.advance, ih, NutsDBItr.Next_elems]

theorem NutsDBItr.Value_mem {α : Type} (n : NutsDBItr α) (x : α) (h : n.Value = some x) :
    x ∈ n.elems := by
  unfold NutsDBItr.Value at h
  split_ifs at h
  exact List.mem_iff_get?.2 ⟨_, h⟩

theorem refResendSerializer_roundTrip : refResendSerializer.RoundTrip := by
  intro r
  cases r with
  | mk DestIds EvtId CreatedAt =>
    simp only [refResendSerializer, List.take_left, List.drop_left, Option.some.injEq,
      ResendEvent.mk.injEq, true_and]
    split_ifs with h1 h2 h2
    · exact Int.natAbs_of_nonneg h1
    · simp at h2
    · simp at h2
    · rw [Int.ofNat_natAbs_of_nonpos (by omega)]; simp

theorem ResendSerializer.RoundTrip.record_injective {rser : ResendSerializer} (hser : rser.RoundTrip)
    {a b : ResendEvent} (h : rser.Encode a = rser.Encode b) : a = b := by
  have ha := hser a
  rw [h, hser b] at ha
  exact (Option.some.inj ha).symm

/-- C11: on an open store whose queue holds serialized records,
`AddReSendNeededEvent d e` followed by `RemoveReSendNeededEvent r e` with
`r = {d, e.id, e.created_at}` leaves the Resend Queue without a member for
that record, and the iterator of a subsequent `GetReSendNeededEventItr` is
built over a list without the record and yields it after no number of `Next`
calls. -/
theorem resend_add_then_remove (rser : ResendSerializer) (hser : rser.RoundTrip) (n : DB)
    (hopen : n.closed = false) (hq : n.ReSendNeededEvtList.HoldsRecords rser)
    (destIds : List Nat) (evt : Np2pEvent) (isLogging : Bool) :
    (∀ m ∈ (RemoveReSendNeededEvent rser (AddReSendNeededEvent rser n destIds evt isLogging)
        (resendRecord destIds evt) evt).ReSendNeededEvtList,
      m.Value ≠ rser.Encode (resendRecord destIds evt)) ∧
    ∃ it, GetReSendNeededEventItr rser
        (RemoveReSendNeededEvent rser (AddReSendNeededEvent rser n destIds evt isLogging)
          (resendRecord destIds evt) evt) = some it ∧
      some (resendRecord destIds evt) ∉ it.elems ∧
      ∀ k, (it.advance k).Value ≠ some (some (resendRecord destIds evt)) := by
  have hadd := AddReSendNeededEvent_open rser n destIds evt isLogging hopen
  have hc1 : (AddReSendNeededEvent rser n destIds evt isLogging).closed = false := by
    rw [hadd]; exact hopen
  have hrem := RemoveReSendNeededEvent_open rser _ (resendRecord destIds evt) evt hc1
  have hc2 : (RemoveReSendNeededEvent rser (AddReSendNeededEvent rser n destIds evt isLogging)
      (resendRecord destIds evt) evt).closed = false := by
    rw [hrem]; exact hc1
  have hgone : ∀ m ∈ (RemoveReSendNeededEvent rser
      (AddReSendNeededEvent rser n destIds evt isLogging)
      (resendRecord destIds evt) evt).ReSendNeededEvtList,
      m.Value ≠ rser.Encode (resendRecord destIds evt) := by
    intro m hm
    rw [hrem] at hm
    exact ((SortedSet.mem_ZRem _ _ _).1 hm).2
  have hrec : (RemoveReSendNeededEvent rser (AddReSendNeededEvent rser n destIds evt isLogging)
      (resendRecord destIds evt) evt).ReSendNeededEvtList.HoldsRecords rser := by
    intro m hm
    rw [hrem] at hm
    have hm1 := ((SortedSet.mem_ZRem _ _ _).1 hm).1
    rw [hadd] at hm1
    rcases SortedSet.mem_ZAdd_cases _ _ _ m hm1 with h | h
    · exact ⟨resendRecord destIds evt, by rw [h]⟩
    · exact hq m h
  refine ⟨hgone, _, GetReSendNeededEventItr_open rser _ hc2, ?_, ?_⟩
  · intro hmem
    simp only [NewNutsDBItr, List.mem_map, List.mem_filter] at hmem
    obtain ⟨m, ⟨hm, _⟩, hdec⟩ := hmem
    obtain ⟨r, hr⟩ := hrec m hm
    rw [hr, hser r] at hdec
    have : r = resendRecord destIds evt := Option.some.inj hdec
    exact hgone m hm (by rw [hr, this])
  · intro k hval
    have hmem := NutsDBItr.Value_mem _ _ hval
    rw [NutsDBItr.advance_elems] at hmem
    simp only [NewNutsDBItr, List.mem_map, List.mem_filter] at hmem
    obtain ⟨m, ⟨hm, _⟩, hdec⟩ := hmem
    obtain ⟨r, hr⟩ := hrec m hm
    rw [hr, hser r] at hdec
    have : r = resendRecord destIds evt := Option.some.inj hdec
    exact hgone m hm (by rw [hr, this])

theorem SortedSet.HoldsRecords_ZAdd (rser : ResendSerializer) (z : SortedSet) (score : Float64)
    (r : ResendEvent) (h : z.HoldsRecords rser) :
    (z.ZAdd score (rser.Encode r)).HoldsRecords rser := by
  intro m hm
  rcases SortedSet.mem_ZAdd_cases _ _ _ m hm with h1 | h1
  · exact ⟨r, by rw [h1]⟩
  · exact h m h1

theorem SortedSet.HoldsRecords_nil (rser : ResendSerializer) :
    SortedSet.HoldsRecords rser [] := by
  intro m hm
  simp at hm

/-- C11, witness: a queue holding the record of the event stamped 20; the
record of the event stamped 5 for the peers 1 and 2 is added and removed. -/
theorem resend_add_then_remove_witness :
    refResendSerializer.RoundTrip ∧
    (AddReSendNeededEvent refResendSerializer DB.empty [3] eventAt20 false).closed = false ∧
    (AddReSendNeededEvent refResendSerializer DB.empty [3] eventAt20
      false).ReSendNeededEvtList.HoldsRecords refResendSerializer ∧
    (RemoveReSendNeededEvent refResendSerializer
        (AddReSendNeededEvent refResendSerializer
          (AddReSendNeededEvent refResendSerializer DB.empty [3] eventAt20 false)
          [1, 2] eventAt5 false)
        (resendRecord [1, 2] eventAt5) eventAt5).ReSendNeededEvtList
      = [⟨20, refResendSerializer.Encode (resendRecord [3] eventAt20)⟩] ∧
    ∃ it, GetReSendNeededEventItr refResendSerializer
        (RemoveReSendNeededEvent refResendSerializer
          (AddReSendNeededEvent refResendSerializer
            (AddReSendNeededEvent refResendSerializer DB.empty [3] eventAt20 false)
            [1, 2] eventAt5 false)
          (resendRecord [1, 2] eventAt5) eventAt5) = some it ∧
      some (resendRecord [1, 2] eventAt5) ∉ it.elems ∧
      ∀ k, (it.advance k).Value ≠ some (some (resendRecord [1, 2] eventAt5)) :=
  ⟨refResendSerializer_roundTrip, by decide,
    by
      rw [AddReSendNeededEvent_open _ _ _ _ _ rfl]
      exact SortedSet.HoldsRecords_ZAdd _ _ _ _ (SortedSet.HoldsRecords_nil _),
    by decide,
    (resend_add_then_remove refResendSerializer refResendSerializer_roundTrip
      (AddReSendNeededEvent refResendSerializer DB.empty [3] eventAt20 false) (by decide)
      (by
        rw [AddReSendNeededEvent_open _ _ _ _ _ rfl]
        exact SortedSet.HoldsRecords_ZAdd _ _ _ _ (SortedSet.HoldsRecords_nil _))
      [1, 2] eventAt5 false).2⟩

/-- C12: when the serialized form of the record equals no member of the
Resend Queue, `RemoveReSendNeededEvent` returns the store unchanged: the queue
and every other structure are as before (the operation has no result through
which an error could reach the caller). -/
theorem RemoveReSendNeededEvent_miss (rser : ResendSerializer) (n : DB) (resendEvt : ResendEvent)
    (evt : Np2pEvent)
    (h : ∀ m ∈ n.ReSendNeededEvtList, m.Value ≠ rser.Encode resendEvt) :
    RemoveReSendNeededEvent rser n resendEvt evt = n := by
  have hfil : n.ReSendNeededEvtList.ZRem (rser.Encode resendEvt) = n.ReSendNeededEvtList := by
    rw [SortedSet.ZRem, List.filter_eq_self]
    intro m hm
    simpa using h m hm
  unfold RemoveReSendNeededEvent DB.Update
  split_ifs
  · rfl
  · simp only [hfil]

/-- C12, witness: the queue holds the record of the event stamped 5 for the
peers 1 and 2; the removal is asked for the same event with the peer 1 only. -/
theorem RemoveReSendNeededEvent_miss_witness :
    (∀ m ∈ (AddReSendNeededEvent refResendSerializer
        (StoreEvent refSerializer DB.empty eventAt5) [1, 2] eventAt5 false).ReSendNeededEvtList,
      m.Value ≠ refResendSerializer.Encode (resendRecord [1] eventAt5)) ∧
    RemoveReSendNeededEvent refResendSerializer
        (AddReSendNeededEvent refResendSerializer
          (StoreEvent refSerializer DB.empty eventAt5) [1, 2] eventAt5 false)
        (resendRecord [1] eventAt5) eventAt5
      = AddReSendNeededEvent refResendSerializer
          (StoreEvent refSerializer DB.empty eventAt5) [1, 2] eventAt5 false :=
  ⟨by decide,
    RemoveReSendNeededEvent_miss refResendSerializer
      (AddReSendNeededEvent refResendSerializer
        (StoreEvent refSerializer DB.empty eventAt5) [1, 2] eventAt5 false)
      (resendRecord [1] eventAt5) eventAt5 (by decide)⟩

theorem float64OfInt64_bounds (x : Int) (h0 : 0 ≤ x) (h1 : x < 2 ^ 63) :
    0 ≤ float64OfInt64 x ∧ float64OfInt64 x ≤ MaxFloat64 := by
  have hz : float64OfInt64 0 = 0 := by decide
  have htop : float64OfInt64 (2 ^ 63) ≤ MaxFloat64 := by decide
  constructor
  · rw [← hz]; exact float64OfInt64_mono h0
  · exact le_trans (float64OfInt64_mono (le_of_lt h1)) htop

/-- The iterator materializes every record filed under a score between zero
and the largest double, and yields it after some number of `Next` calls. -/
theorem GetReSendNeededEventItr_holds (rser : ResendSerializer) (hser : rser.RoundTrip) (n : DB)
    (hopen : n.closed = false) (r : ResendEvent) (score : Float64)
    (hmem : (⟨score, rser.Encode r⟩ : SortedSetMember) ∈ n.ReSendNeededEvtList)
    (h0 : 0 ≤ score) (h1 : score ≤ MaxFloat64) :
    ∃ it, GetReSendNeededEventItr rser n = some it ∧ some r ∈ it.elems ∧
      ∃ i, ((it.advance i).Next).2 = true ∧ ((it.advance i).Next).1.Value = some (some r) := by
  refine ⟨_, GetReSendNeededEventItr_open rser n hopen, ?_, ?_⟩
  · simp only [NewNutsDBItr, List.mem_map, List.mem_filter]
    exact ⟨⟨score, rser.Encode r⟩, ⟨hmem, by simp [h0, h1]⟩, hser r⟩
  · have hin : some r ∈ (n.ReSendNeededEvtList.filter
        (fun x => decide (0 ≤ x.Score ∧ x.Score ≤ MaxFloat64))).map
        (fun entry => rser.Decode entry.Value) := by
      simp only [List.mem_map, List.mem_filter]
      exact ⟨⟨score, rser.Encode r⟩, ⟨hmem, by simp [h0, h1]⟩, hser r⟩
    obtain ⟨i, hi⟩ := List.mem_iff_get?.1 hin
    have hlt : i < ((n.ReSendNeededEvtList.filter
        (fun x => decide (0 ≤ x.Score ∧ x.Score ≤ MaxFloat64))).map
        (fun entry => rser.Decode entry.Value)).length := by
      by_contra hge
      rw [List.get?_eq_none.2 (by omega)] at hi
      exact Option.noConfusion hi
    obtain ⟨h2, h3⟩ := NutsDBItr_first_calls _ i hlt
    exact ⟨i, h2, by rw [h3, hi]⟩

/-- C13, counterexample: the record added for an event stamped `-1` is in the
Resend Queue, under the score `-1`, but the iterator is built over the empty
list: the scan starts at the score zero. -/
theorem GetReSendNeededEventItr_skips_negative :
    (AddReSendNeededEvent refResendSerializer DB.empty [1, 2] eventBeforeEpoch
      false).ReSendNeededEvtList
      = [⟨-1, refResendSerializer.Encode (resendRecord [1, 2] eventBeforeEpoch)⟩] ∧
    GetReSendNeededEventItr refResendSerializer
      (AddReSendNeededEvent refResendSerializer DB.empty [1, 2] eventBeforeEpoch false)
      = some (NewNutsDBItr []) := by
  decide


theorem runOps_append (ser : Serializer) (rser : ResendSerializer) (n : DB) (a b : List Op) :
    runOps ser rser n (a ++ b) = runOps ser rser (runOps ser rser n a) b := by
  simp [runOps, List.foldl_append]

/-- Filing a record keeps every member of a queue of scored records. -/
theorem SortedSet.mem_ZAdd_of_mem_record (rser : ResendSerializer) (hser : rser.RoundTrip)
    (z : SortedSet) (hz : z.HoldsScoredRecords rser) (r : ResendEvent)
    (x : SortedSetMember) (hx : x ∈ z) :
    x ∈ z.ZAdd (float64OfInt64 r.CreatedAt) (rser.Encode r) := by
  unfold SortedSet.ZAdd
  split_ifs with h
  · exact hx
  · apply (SortedSet.mem_insert _ _ _).2
    right
    apply List.mem_filter.2
    refine ⟨hx, ?_⟩
    apply decide_eq_true
    intro hval
    obtain ⟨r2, hr2⟩ := hz x hx
    rw [hr2] at hval
    have hrr : r2 = r := hser.record_injective hval
    apply h
    rw [hr2, hrr] at hx
    exact hx

/-- One call keeps the queue a queue of scored records and, unless it removes
the record, keeps the member of the record. -/
theorem Op.apply_queue (ser : Serializer) (rser : ResendSerializer) (hser : rser.RoundTrip)
    (n : DB) (hopen : n.closed = false) (hq : n.ReSendNeededEvtList.HoldsScoredRecords rser)
    (op : Op) :
    (Op.apply ser rser n op).closed = false ∧
    (Op.apply ser rser n op).ReSendNeededEvtList.HoldsScoredRecords rser ∧
    ∀ r : ResendEvent, Op.removesRecord r op = false →
      ∀ x ∈ n.ReSendNeededEvtList, x.Value = rser.Encode r →
        x ∈ (Op.apply ser rser n op).ReSendNeededEvtList := by
  cases op with
  | StoreEvent evt =>
    simp only [Op.apply, StoreEvent_open ser n evt hopen]
    exact ⟨hopen, hq, fun _ _ x hx _ => hx⟩
  | StoreProfile evt =>
    simp only [Op.apply, StoreProfile_open n evt hopen]
    exact ⟨hopen, hq, fun _ _ x hx _ => hx⟩
  | StoreFollowList evt =>
    simp only [Op.apply, StoreFollowList_open n evt hopen]
    exact ⟨hopen, hq, fun _ _ x hx _ => hx⟩
  | AddReSendNeededEvent destIds evt isLogging =>
    simp only [Op.apply, AddReSendNeededEvent_open rser n destIds evt isLogging hopen]
    refine ⟨hopen, ?_, ?_⟩
    · intro m hm
      rcases SortedSet.mem_ZAdd_cases _ _ _ m hm with h1 | h1
      · exact ⟨resendRecord destIds evt, h1⟩
      · exact hq m h1
    · intro _ _ x hx _
      exact SortedSet.mem_ZAdd_of_mem_record rser hser _ hq (resendRecord destIds evt) x hx
  | RemoveReSendNeededEvent resendEvt evt =>
    simp only [Op.apply, RemoveReSendNeededEvent_open rser n resendEvt evt hopen]
    refine ⟨hopen, ?_, ?_⟩
    · intro m hm
      exact hq m ((SortedSet.mem_ZRem _ _ _).1 hm).1
    · intro r hr x hx hval
      apply (SortedSet.mem_ZRem _ _ _).2
      refine ⟨hx, ?_⟩
      rw [hval]
      intro henc
      have hrr : r = resendEvt := hser.record_injective henc
      simp [Op.removesRecord, hrr] at hr
  | GetEventById _ => exact ⟨hopen, hq, fun _ _ x hx _ => hx⟩
  | GetProfileLocal _ => exact ⟨hopen, hq, fun _ _ x hx _ => hx⟩
  | GetFollowListLocal _ => exact ⟨hopen, hq, fun _ _ x hx _ => hx⟩
  | GetLatestEvents _ _ _ => exact ⟨hopen, hq, fun _ _ x hx _ => hx⟩
  | GetReSendNeededEventItr => exact ⟨hopen, hq, fun _ _ x hx _ => hx⟩

theorem runOps_queue (ser : Serializer) (rser : ResendSerializer) (hser : rser.RoundTrip)
    (ops : List Op) (n : DB) (hopen : n.closed = false)
    (hq : n.ReSendNeededEvtList.HoldsScoredRecords rser) :
    (runOps ser rser n ops).closed = false ∧
    (runOps ser rser n ops).ReSendNeededEvtList.HoldsScoredRecords rser ∧
    ∀ r : ResendEvent, (∀ op ∈ ops, Op.removesRecord r op = false) →
      ∀ x ∈ n.ReSendNeededEvtList, x.Value = rser.Encode r →
        x ∈ (runOps ser rser n ops).ReSendNeededEvtList := by
  induction ops generalizing n with
  | nil => exact ⟨hopen, hq, fun _ _ x hx _ => hx⟩
  | cons op ops ih =>
    obtain ⟨hc1, hq1, hk1⟩ := Op.apply_queue ser rser hser n hopen hq op
    obtain ⟨hc2, hq2, hk2⟩ := ih _ hc1 hq1
    rw [runOps_cons]
    refine ⟨hc2, hq2, ?_⟩
    intro r hkeep x hx hval
    exact hk2 r (fun o ho => hkeep o (List.mem_cons_of_mem _ ho)) x
      (hk1 r (hkeep op (List.mem_cons_self _ _)) x hx hval) hval

theorem HoldsScoredRecords_empty (rser : ResendSerializer) :
    DB.empty.ReSendNeededEvtList.HoldsScoredRecords rser := by
  intro m hm
  simp [DB.empty] at hm

/-- C13, amended: in every store reached from the empty store by the public
operations, the iterator returned by `GetReSendNeededEventItr` is built over
the records of the Resend Queue whose score lies between zero and the largest
double; each record added by `AddReSendNeededEvent` for an event with a
non-negative timestamp and not removed by a later call is in the materialized
list and is yielded by the iterator. -/
theorem GetReSendNeededEventItr_yields_added (ser : Serializer) (rser : ResendSerializer)
    (hser : rser.RoundTrip) (pre post : List Op) (destIds : List Nat) (evt : Np2pEvent)
    (isLogging : Bool) (h0 : 0 ≤ evt.Created_at) (h63 : evt.Created_at < 2 ^ 63)
    (hkeep : ∀ op ∈ post, Op.removesRecord (resendRecord destIds evt) op = false) :
    ∃ it, GetReSendNeededEventItr rser
        (runOps ser rser DB.empty (pre ++ Op.AddReSendNeededEvent destIds evt isLogging :: post))
        = some it ∧
      it.elems = ((runOps ser rser DB.empty
          (pre ++ Op.AddReSendNeededEvent destIds evt isLogging :: post)).ReSendNeededEvtList.filter
          (fun x => decide (0 ≤ x.Score ∧ x.Score ≤ MaxFloat64))).map
          (fun entry => rser.Decode entry.Value) ∧
      some (resendRecord destIds evt) ∈ it.elems ∧
      ∃ i, ((it.advance i).Next).2 = true ∧
        ((it.advance i).Next).1.Value = some (some (resendRecord destIds evt)) := by
  obtain ⟨hc1, hq1, _⟩ := runOps_queue ser rser hser pre DB.empty rfl
    (HoldsScoredRecords_empty rser)
  obtain ⟨hc2, hq2, _⟩ := Op.apply_queue ser rser hser _ hc1 hq1
    (Op.AddReSendNeededEvent destIds evt isLogging)
  have hadd : (⟨float64OfInt64 evt.Created_at, rser.Encode (resendRecord destIds evt)⟩ :
      SortedSetMember) ∈ (Op.apply ser rser (runOps ser rser DB.empty pre)
        (Op.AddReSendNeededEvent destIds evt isLogging)).ReSendNeededEvtList := by
    simp only [Op.apply, AddReSendNeededEvent_open rser _ destIds evt isLogging hc1]
    exact SortedSet.mem_ZAdd_self _ _ _
  obtain ⟨hc3, _, hk3⟩ := runOps_queue ser rser hser post _ hc2 hq2
  have hmem := hk3 (resendRecord destIds evt) hkeep _ hadd rfl
  have hrun : runOps ser rser DB.empty
      (pre ++ Op.AddReSendNeededEvent destIds evt isLogging :: post)
      = runOps ser rser (Op.apply ser rser (runOps ser rser DB.empty pre)
          (Op.AddReSendNeededEvent destIds evt isLogging)) post := by
    rw [runOps_append, runOps_cons]
  rw [hrun]
  obtain ⟨hb0, hb1⟩ := float64OfInt64_bounds evt.Created_at h0 h63
  obtain ⟨it, hit, hin, hy⟩ := GetReSendNeededEventItr_holds rser hser _ hc3
    (resendRecord destIds evt) (float64OfInt64 evt.Created_at) hmem hb0 hb1
  refine ⟨it, hit, ?_, hin, hy⟩
  rw [GetReSendNeededEventItr_open rser _ hc3] at hit
  rw [← Option.some.inj hit]
  rfl

/-- C13, witness: the record of the event stamped 20 is added first; a later
event, a second record, a removal that misses and the removal of the second
record follow.  The iterator is built over the record stamped 20 alone and
yields it. -/
theorem GetReSendNeededEventItr_yields_added_witness :
    refResendSerializer.RoundTrip ∧
    (0 ≤ eventAt20.Created_at ∧ eventAt20.Created_at < 2 ^ 63) ∧
    (∀ op ∈ [Op.StoreEvent eventAt5, Op.AddReSendNeededEvent [1, 2] eventAt5 false,
        Op.RemoveReSendNeededEvent (resendRecord [1] eventAt5) eventAt5,
        Op.RemoveReSendNeededEvent (resendRecord [1, 2] eventAt5) eventAt5],
      Op.removesRecord (resendRecord [3] eventAt20) op = false) ∧
    GetReSendNeededEventItr refResendSerializer
      (runOps refSerializer refResendSerializer DB.empty
        ([] ++ Op.AddReSendNeededEvent [3] eventAt20 false ::
          [Op.StoreEvent eventAt5, Op.AddReSendNeededEvent [1, 2] eventAt5 false,
            Op.RemoveReSendNeededEvent (resendRecord [1] eventAt5) eventAt5,
            Op.RemoveReSendNeededEvent (resendRecord [1, 2] eventAt5) eventAt5]))
      = some (NewNutsDBItr [some (resendRecord [3] eventAt20)]) ∧
    ∃ it, GetReSendNeededEventItr refResendSerializer
        (runOps refSerializer refResendSerializer DB.empty
          ([] ++ Op.AddReSendNeededEvent [3] eventAt20 false ::
            [Op.StoreEvent eventAt5, Op.AddReSendNeededEvent [1, 2] eventAt5 false,
              Op.RemoveReSendNeededEvent (resendRecord [1] eventAt5) eventAt5,
              Op.RemoveReSendNeededEvent (resendRecord [1, 2] eventAt5) eventAt5]))
        = some it ∧
      it.elems = ((runOps refSerializer refResendSerializer DB.empty
          ([] ++ Op.AddReSendNeededEvent [3] eventAt20 false ::
            [Op.StoreEvent eventAt5, Op.AddReSendNeededEvent [1, 2] eventAt5 false,
              Op.RemoveReSendNeededEvent (resendRecord [1] eventAt5) eventAt5,
              Op.RemoveReSendNeededEvent (resendRecord [1, 2] eventAt5)
                eventAt5])).ReSendNeededEvtList.filter
          (fun x => decide (0 ≤ x.Score ∧ x.Score ≤ MaxFloat64))).map
          (fun entry => refResendSerializer.Decode entry.Value) ∧
      some (resendRecord [3] eventAt20) ∈ it.elems ∧
      ∃ i, ((it.advance i).Next).2 = true ∧
        ((it.advance i).Next).1.Value = some (some (resendRecord [3] eventAt20)) :=
  ⟨refResendSerializer_roundTrip, by decide, by decide, by decide,
    GetReSendNeededEventItr_yields_added refSerializer refResendSerializer
      refResendSerializer_roundTrip []
      [Op.StoreEvent eventAt5, Op.AddReSendNeededEvent [1, 2] eventAt5 false,
        Op.RemoveReSendNeededEvent (resendRecord [1] eventAt5) eventAt5,
        Op.RemoveReSendNeededEvent (resendRecord [1, 2] eventAt5) eventAt5]
      [3] eventAt20 false (by decide) (by decide) (by decide)⟩

/-! ### C14, C15: invariants of the reachable stores -/

/-- The effect of one call on the Ledger of an open store. -/
theorem Op.apply_ledger (ser : Serializer) (rser : ResendSerializer) (n : DB)
    (hopen : n.closed = false) (op : Op) :
    (Op.apply ser rser n op).closed = false ∧
    (Op.apply ser rser n op).EventListKeyListForLimit
      = n.EventListKeyListForLimit ++
          (storedEvents [op]).map (fun e => ConvInt64ToBytes e.Created_at) := by
  cases op with
  | StoreEvent evt =>
    simp only [Op.apply, StoreEvent_open ser n evt hopen, storedEvents, RPush, List.map_cons,
      List.map_nil]
    exact ⟨hopen, trivial⟩
  | StoreProfile evt =>
    simp only [Op.apply, StoreProfile_open n evt hopen, storedEvents, List.map_nil,
      List.append_nil]
    exact ⟨hopen, trivial⟩
  | StoreFollowList evt =>
    simp only [Op.apply, StoreFollowList_open n evt hopen, storedEvents, List.map_nil,
      List.append_nil]
    exact ⟨hopen, trivial⟩
  | AddReSendNeededEvent destIds evt isLogging =>
    simp only [Op.apply, AddReSendNeededEvent_open rser n destIds evt isLogging hopen,
      storedEvents, List.map_nil, List.append_nil]
    exact ⟨hopen, trivial⟩
  | RemoveReSendNeededEvent resendEvt evt =>
    simp only [Op.apply, RemoveReSendNeededEvent_open rser n resendEvt evt hopen, storedEvents,
      List.map_nil, List.append_nil]
    exact ⟨hopen, trivial⟩
  | GetEventById _ => simp [Op.apply, storedEvents, hopen]
  | GetProfileLocal _ => simp [Op.apply, storedEvents, hopen]
  | GetFollowListLocal _ => simp [Op.apply, storedEvents, hopen]
  | GetLatestEvents _ _ _ => simp [Op.apply, storedEvents, hopen]
  | GetReSendNeededEventItr => simp [Op.apply, storedEvents, hopen]

theorem runOps_ledger (ser : Serializer) (rser : ResendSerializer) (ops : List Op) (n : DB)
    (hopen : n.closed = false) :
    (runOps ser rser n ops).closed = false ∧
    (runOps ser rser n ops).EventListKeyListForLimit
      = n.EventListKeyListForLimit ++
          (storedEvents ops).map (fun e => ConvInt64ToBytes e.Created_at) := by
  induction ops generalizing n with
  | nil => simp [runOps, storedEvents, hopen]
  | cons op ops ih =>
    obtain ⟨hc, hl⟩ := Op.apply_ledger ser rser n hopen op
    obtain ⟨hc2, hl2⟩ := ih _ hc
    rw [runOps_cons, storedEvents_cons]
    refine ⟨hc2, ?_⟩
    rw [hl2, hl, List.map_append, List.append_assoc]

/-- C14: in the store reached from the empty store by any sequence of calls of
the public operations, the Ledger is the list of the timestamps passed to
`StoreEvent`, in call order, so its length is the number of `StoreEvent`
calls; and one more call appends the serialized `evt.created_at` at the tail
when it is `StoreEvent evt` and leaves the Ledger unchanged otherwise. -/
theorem ledger_counts_StoreEvent_calls (ser : Serializer) (rser : ResendSerializer)
    (ops : List Op) :
    (runOps ser rser DB.empty ops).EventListKeyListForLimit
      = (storedEvents ops).map (fun e => ConvInt64ToBytes e.Created_at) ∧
    (runOps ser rser DB.empty ops).EventListKeyListForLimit.length = (storedEvents ops).length ∧
    (∀ evt, (StoreEvent ser (runOps ser rser DB.empty ops) evt).EventListKeyListForLimit
      = (runOps ser rser DB.empty ops).EventListKeyListForLimit
          ++ [ConvInt64ToBytes evt.Created_at]) ∧
    (∀ evt, (StoreProfile (runOps ser rser DB.empty ops) evt).EventListKeyListForLimit
      = (runOps ser rser DB.empty ops).EventListKeyListForLimit) ∧
    (∀ evt, (StoreFollowList (runOps ser rser DB.empty ops) evt).EventListKeyListForLimit
      = (runOps ser rser DB.empty ops).EventListKeyListForLimit) ∧
    (∀ destIds evt isLogging,
      (AddReSendNeededEvent rser (runOps ser rser DB.empty ops) destIds evt
        isLogging).EventListKeyListForLimit
      = (runOps ser rser DB.empty ops).EventListKeyListForLimit) ∧
    (∀ resendEvt evt,
      (RemoveReSendNeededEvent rser (runOps ser rser DB.empty ops) resendEvt
        evt).EventListKeyListForLimit
      = (runOps ser rser DB.empty ops).EventListKeyListForLimit) := by
  obtain ⟨hc, hl⟩ := runOps_ledger ser rser ops DB.empty rfl
  have hl2 : (runOps ser rser DB.empty ops).EventListKeyListForLimit
      = (storedEvents ops).map (fun e => ConvInt64ToBytes e.Created_at) := by
    rw [hl]; rfl
  refine ⟨hl2, by rw [hl2, List.length_map], ?_, ?_, ?_, ?_, ?_⟩
  · intro evt
    rw [StoreEvent_open ser _ evt hc]; rfl
  · intro evt
    rw [StoreProfile_open _ evt hc]
  · intro evt
    rw [StoreFollowList_open _ evt hc]
  · intro destIds evt isLogging
    rw [AddReSendNeededEvent_open rser _ destIds evt isLogging hc]
  · intro resendEvt evt
    rw [RemoveReSendNeededEvent_open rser _ resendEvt evt hc]

theorem BTree.mem_of_Get (m : BTree) (key val : Bytes) (h : m.Get key = .ok val) :
    (key, val) ∈ m := by
  unfold BTree.Get at h
  cases hf : m.find? (fun p => decide (p.1 = key)) with
  | none => rw [hf] at h; exact Except.noConfusion h
  | some p =>
    rw [hf] at h
    have hv : p.2 = val := Except.ok.inj h
    have hk : p.1 = key := by simpa using List.find?_some hf
    have hp : p ∈ m := List.mem_of_find?_eq_some hf
    have : p = (key, val) := by rw [← hk, ← hv]
    rw [← this]; exact hp

theorem BTree.mem_Put (m : BTree) (key val : Bytes) (p : Bytes × Bytes)
    (h : p ∈ m.Put key val) : p = (key, val) ∨ p ∈ m := by
  simp only [BTree.Put, List.mem_cons, List.mem_filter] at h
  rcases h with h | h
  · exact Or.inl h
  · exact Or.inr h.1

theorem IndexesAgree_empty (ser : Serializer) : IndexesAgree ser DB.empty := by
  refine ⟨rfl, ?_, ?_⟩
  · intro m hm; simp [DB.empty] at hm
  · intro p hp; simp [DB.empty] at hp

theorem IndexesAgree_StoreEvent (ser : Serializer) (hser : ser.RoundTrip) (n : DB)
    (h : IndexesAgree ser n) (evt : Np2pEvent) (h64 : IsInt64 evt.Created_at) :
    IndexesAgree ser (StoreEvent ser n evt) := by
  obtain ⟨hc, hz, hidx⟩ := h
  rw [StoreEvent_open ser n evt hc]
  refine ⟨hc, ?_, ?_⟩
  · intro m hm
    rcases SortedSet.mem_ZAdd_cases _ _ _ m hm with h1 | h1
    · exact ⟨evt, h1⟩
    · exact hz m h1
  · intro p hp
    rcases BTree.mem_Put _ _ _ p hp with h1 | h1
    · exact ⟨evt, h64, h1, SortedSet.mem_ZAdd_self _ _ _⟩
    · obtain ⟨e, he64, hpe, hmem⟩ := hidx p h1
      exact ⟨e, he64, hpe, SortedSet.mem_ZAdd_of_mem ser hser _ hz evt _ hmem⟩

theorem IndexesAgree_apply (ser : Serializer) (hser : ser.RoundTrip) (rser : ResendSerializer)
    (n : DB) (h : IndexesAgree ser n) (op : Op)
    (h64 : ∀ e ∈ storedEvents [op], IsInt64 e.Created_at) :
    IndexesAgree ser (Op.apply ser rser n op) := by
  have hc := h.1
  cases op with
  | StoreEvent evt =>
    exact IndexesAgree_StoreEvent ser hser n h evt (h64 evt (by simp [storedEvents]))
  | StoreProfile evt =>
    simp only [Op.apply, StoreProfile_open n evt hc]; exact h
  | StoreFollowList evt =>
    simp only [Op.apply, StoreFollowList_open n evt hc]; exact h
  | AddReSendNeededEvent destIds evt isLogging =>
    simp only [Op.apply, AddReSendNeededEvent_open rser n destIds evt isLogging hc]; exact h
  | RemoveReSendNeededEvent resendEvt evt =>
    simp only [Op.apply, RemoveReSendNeededEvent_open rser n resendEvt evt hc]; exact h
  | GetEventById _ => exact h
  | GetProfileLocal _ => exact h
  | GetFollowListLocal _ => exact h
  | GetLatestEvents _ _ _ => exact h
  | GetReSendNeededEventItr => exact h

theorem IndexesAgree_runOps (ser : Serializer) (hser : ser.RoundTrip) (rser : ResendSerializer)
    (ops : List Op) (n : DB) (h : IndexesAgree ser n)
    (h64 : ∀ e ∈ storedEvents ops, IsInt64 e.Created_at) :
    IndexesAgree ser (runOps ser rser n ops) := by
  induction ops generalizing n with
  | nil => exact h
  | cons op ops ih =>
    rw [storedEvents_cons] at h64
    rw [runOps_cons]
    apply ih
    · exact IndexesAgree_apply ser hser rser n h op
        (fun e he => h64 e (List.mem_append_left _ he))
    · exact fun e he => h64 e (List.mem_append_right _ he)

/-- C15, counterexample: after `StoreEvent` of an event stamped `2 ^ 53 + 1`
on the empty store, its identifier is present in the Identity Index with the
stored timestamp `t = 2 ^ 53 + 1`, and no Time Index member has the score `t`:
the event is filed under the score `2 ^ 53`. -/
theorem identity_and_time_index_scores_differ :
    (runOps refSerializer refResendSerializer DB.empty
        [Op.StoreEvent eventOddAbove53]).EventIdxMapIdKey.Get eventOddAbove53.Id
      = .ok (ConvInt64ToBytes (2 ^ 53 + 1)) ∧
    timestampOfBytes (ConvInt64ToBytes (2 ^ 53 + 1)) = 2 ^ 53 + 1 ∧
    (∀ m ∈ (runOps refSerializer refResendSerializer DB.empty
        [Op.StoreEvent eventOddAbove53]).EventListTimeKey, m.Score ≠ 2 ^ 53 + 1) ∧
    (runOps refSerializer refResendSerializer DB.empty
        [Op.StoreEvent eventOddAbove53]).EventListTimeKey
      = [⟨2 ^ 53, refSerializer.Encode eventOddAbove53⟩] := by
  decide

/-- C15, amended: in the store reached from the empty store by any sequence
of calls of the public operations (events with `int64` timestamps, serializer
with the round-trip law), the Identity Index and the Time Index agree: for
every identifier present in the Identity Index, with `t` its stored timestamp,
the Time Index holds a member with the score `float64(t)`, which is `t` itself
when `t` lies within `± 2 ^ 53`, whose decoded event has that identifier and
`created_at = t`. -/
theorem identity_and_time_index_agree (ser : Serializer) (hser : ser.RoundTrip)
    (rser : ResendSerializer) (ops : List Op)
    (h64 : ∀ e ∈ storedEvents ops, IsInt64 e.Created_at)
    (evtId val : Bytes)
    (hget : (runOps ser rser DB.empty ops).EventIdxMapIdKey.Get evtId = .ok val) :
    ∃ m ∈ (runOps ser rser DB.empty ops).EventListTimeKey,
      m.Score = float64OfInt64 (timestampOfBytes val) ∧
      (-2 ^ 53 ≤ timestampOfBytes val → timestampOfBytes val ≤ 2 ^ 53 →
        m.Score = timestampOfBytes val) ∧
      ∃ e, ser.Decode m.Value = some e ∧ e.Id = evtId ∧ e.Created_at = timestampOfBytes val := by
  obtain ⟨_, _, hidx⟩ := IndexesAgree_runOps ser hser rser ops DB.empty (IndexesAgree_empty ser) h64
  obtain ⟨e, he64, hpe, hmem⟩ := hidx _ (BTree.mem_of_Get _ _ _ hget)
  have hid : evtId = e.Id := (Prod.mk.inj hpe).1
  have hval : val = ConvInt64ToBytes e.Created_at := (Prod.mk.inj hpe).2
  have hts : timestampOfBytes val = e.Created_at := by
    rw [hval, timestampOfBytes, BigEndian_Uint64_ConvInt64ToBytes]
    exact int64OfUint64_uint64OfInt64 _ he64.1 he64.2
  refine ⟨timeMember ser e, hmem, ?_, ?_, e, ?_, hid.symm, hts.symm⟩
  · rw [hts]; rfl
  · intro h1 h2
    rw [hts] at h1 h2 ⊢
    exact float64OfInt64_exact _ h1 h2
  · exact hser e

/-- C15, witness: two events are stored, one of them before the epoch, with a
profile pointer and a resend record in between; the identifier of the event
stamped `-1` is looked up and its member has the score `-1`. -/
theorem identity_and_time_index_agree_witness :
    refSerializer.RoundTrip ∧
    (∀ e ∈ storedEvents [Op.StoreEvent eventAt5, Op.StoreProfile eventAt5,
        Op.AddReSendNeededEvent [1, 2] eventAt5 false, Op.StoreEvent eventBeforeEpoch],
      IsInt64 e.Created_at) ∧
    (runOps refSerializer refResendSerializer DB.empty
        [Op.StoreEvent eventAt5, Op.StoreProfile eventAt5,
          Op.AddReSendNeededEvent [1, 2] eventAt5 false,
          Op.StoreEvent eventBeforeEpoch]).EventIdxMapIdKey.Get eventBeforeEpoch.Id
      = .ok (ConvInt64ToBytes (-1)) ∧
    (runOps refSerializer refResendSerializer DB.empty
        [Op.StoreEvent eventAt5, Op.StoreProfile eventAt5,
          Op.AddReSendNeededEvent [1, 2] eventAt5 false,
          Op.StoreEvent eventBeforeEpoch]).EventListTimeKey
      = [⟨-1, refSerializer.Encode eventBeforeEpoch⟩, ⟨5, refSerializer.Encode eventAt5⟩] ∧
    ∃ m ∈ (runOps refSerializer refResendSerializer DB.empty
        [Op.StoreEvent eventAt5, Op.StoreProfile eventAt5,
          Op.AddReSendNeededEvent [1, 2] eventAt5 false,
          Op.StoreEvent eventBeforeEpoch]).EventListTimeKey,
      m.Score = float64OfInt64 (timestampOfBytes (ConvInt64ToBytes (-1))) ∧
      (-2 ^ 53 ≤ timestampOfBytes (ConvInt64ToBytes (-1)) →
        timestampOfBytes (ConvInt64ToBytes (-1)) ≤ 2 ^ 53 →
        m.Score = timestampOfBytes (ConvInt64ToBytes (-1))) ∧
      ∃ e, refSerializer.Decode m.Value = some e ∧ e.Id = eventBeforeEpoch.Id ∧
        e.Created_at = timestampOfBytes (ConvInt64ToBytes (-1)) :=
  ⟨refSerializer_roundTrip, by decide, by decide, by decide,
    identity_and_time_index_agree refSerializer refSerializer_roundTrip refResendSerializer
      [Op.StoreEvent eventAt5, Op.StoreProfile eventAt5,
        Op.AddReSendNeededEvent [1, 2] eventAt5 false, Op.StoreEvent eventBeforeEpoch]
      (by decide) eventBeforeEpoch.Id (ConvInt64ToBytes (-1)) (by decide)⟩

/-! ### C16, C17: failed reads and the limit zero -/

/-- On an Identity Index hit `GetEventById` returns the result of the second
lookup together with the flag `true`, whatever that result is. -/
theorem GetEventById_hit (ser : Serializer) (n : DB) (hopen : n.closed = false)
    (evtId val : Bytes) (hget : n.EventIdxMapIdKey.Get evtId = .ok val) :
    GetEventById ser n evtId = (getEventByTimestampBytes ser n val, true) := by
  simp only [GetEventById, DB.View, hopen, hget]
  rfl

/-- C16, the code when its read transaction fails (a closed handle): the
lookups return their not-found values and `GetLatestEvents` the empty list, in
both modes, but `GetReSendNeededEventItr` returns the nil iterator `none`, not
an iterator over the empty list; and the inner lookup by timestamp returns the
nil event, which `GetEventById` pairs with found = true on an index hit. -/
theorem queries_on_failed_read (ser : Serializer) (rser : ResendSerializer) (n : DB)
    (evtId tsBytes : Bytes) (author : Nat) (since until' limit : Int) :
    GetEventById ser { n with closed := true } evtId = (none, false) ∧
    GetProfileLocal ser { n with closed := true } author = none ∧
    GetFollowListLocal ser { n with closed := true } author = none ∧
    GetLatestEvents ser { n with closed := true } since until' limit = [] ∧
    GetReSendNeededEventItr rser { n with closed := true } = none ∧
    GetReSendNeededEventItr rser { n with closed := true } ≠ some (NewNutsDBItr []) ∧
    getEventByTimestampBytes ser { n with closed := true } tsBytes = none := by
  refine ⟨?_, ?_, ?_, ?_, ?_, ?_, ?_⟩
  · simp [GetEventById, DB.View]
  · simp [GetProfileLocal, DB.View]
  · simp [GetFollowListLocal, DB.View]
  · simp only [GetLatestEvents, limitLowerBound, scanTimeIndex, DB.View]
    split_ifs <;> rfl
  · simp [GetReSendNeededEventItr, DB.View]
  · simp [GetReSendNeededEventItr, DB.View]
  · simp [getEventByTimestampBytes, DB.View]

/-- C17, the code at the failing input: with one stored event, and with five,
`GetLatestEvents _ _ 0` reads the Ledger at index `-0 = 0`, the oldest
insertion, and returns every event from there on instead of the empty list. -/
theorem GetLatestEvents_limit_zero_returns_all :
    LRange (StoreEvent refSerializer DB.empty eventAt5).EventListKeyListForLimit
      (wrapInt64 (-1 * 0)) (wrapInt64 (-1 * 0)) = .ok [ConvInt64ToBytes 5] ∧
    GetLatestEvents refSerializer (StoreEvent refSerializer DB.empty eventAt5) 0 0 0
      = [some eventAt5] ∧
    GetLatestEvents refSerializer
      (storeAll refSerializer DB.empty
        [mkEvent 1 7 1, mkEvent 2 7 2, mkEvent 3 7 3, mkEvent 4 7 4, mkEvent 5 7 5]) 0 0 0
      = [some (mkEvent 1 7 1), some (mkEvent 2 7 2), some (mkEvent 3 7 3),
         some (mkEvent 4 7 4), some (mkEvent 5 7 5)] := by
  decide

/-! ### C18, C19: pointer-only writes and the rebuilt score -/

theorem StoreProfile_frame (n : DB) (evt : Np2pEvent) :
    (StoreProfile n evt).closed = n.closed ∧
    (StoreProfile n evt).EventListTimeKey = n.EventListTimeKey ∧
    (StoreProfile n evt).EventIdxMapIdKey = n.EventIdxMapIdKey ∧
    (StoreProfile n evt).EventListKeyListForLimit = n.EventListKeyListForLimit ∧
    (StoreProfile n evt).ReSendNeededEvtList = n.ReSendNeededEvtList := by
  unfold StoreProfile DB.Update
  split_ifs <;> exact ⟨rfl, rfl, rfl, rfl, rfl⟩

theorem StoreFollowList_frame (n : DB) (evt : Np2pEvent) :
    (StoreFollowList n evt).closed = n.closed ∧
    (StoreFollowList n evt).EventListTimeKey = n.EventListTimeKey ∧
    (StoreFollowList n evt).EventIdxMapIdKey = n.EventIdxMapIdKey ∧
    (StoreFollowList n evt).EventListKeyListForLimit = n.EventListKeyListForLimit ∧
    (StoreFollowList n evt).ReSendNeededEvtList = n.ReSendNeededEvtList := by
  unfold StoreFollowList DB.Update
  split_ifs <;> exact ⟨rfl, rfl, rfl, rfl, rfl⟩

/-- The profile lookup right after `StoreProfile` misses when no Time Index
member has the score rebuilt from the pointer. -/
theorem GetProfileLocal_after_StoreProfile_miss (ser : Serializer) (n : DB) (evt : Np2pEvent)
    (hlen : 8 ≤ evt.Pubkey.length) (hbytes : ∀ x ∈ evt.Pubkey, x < 256)
    (hnone : ∀ m ∈ n.EventListTimeKey,
      m.Score ≠ float64OfUint64 (uint64OfInt64 evt.Created_at)) :
    GetProfileLocal ser (StoreProfile n evt) (authorKey evt) = none := by
  cases hc : n.closed with
  | true =>
    have hc2 : (StoreProfile n evt).closed = true := by rw [(StoreProfile_frame n evt).1, hc]
    simp [GetProfileLocal, DB.View, hc2]
  | false =>
    have hc2 : (StoreProfile n evt).closed = false := by rw [(StoreProfile_frame n evt).1, hc]
    have hidx : (StoreProfile n evt).ProfEvtIdxMap.Get (ConvUint64ToBytes (authorKey evt))
        = .ok (ConvInt64ToBytes evt.Created_at) := by
      rw [ConvUint64ToBytes_authorKey evt hlen hbytes, StoreProfile_open n evt hc]
      exact BTree.Get_Put_self _ _ _
    have hmiss : getEventByTimestampBytes ser (StoreProfile n evt)
        (ConvInt64ToBytes evt.Created_at) = none := by
      apply getEventByTimestampBytes_miss
      rw [(StoreProfile_frame n evt).2.1, BigEndian_Uint64_ConvInt64ToBytes]
      exact hnone
    simp only [GetProfileLocal, DB.View, hc2, hidx, hmiss]
    rfl

/-- The follow-list lookup right after `StoreFollowList` misses when no Time
Index member has the score rebuilt from the pointer. -/
theorem GetFollowListLocal_after_StoreFollowList_miss (ser : Serializer) (n : DB)
    (evt : Np2pEvent) (hlen : 8 ≤ evt.Pubkey.length) (hbytes : ∀ x ∈ evt.Pubkey, x < 256)
    (hnone : ∀ m ∈ n.EventListTimeKey,
      m.Score ≠ float64OfUint64 (uint64OfInt64 evt.Created_at)) :
    GetFollowListLocal ser (StoreFollowList n evt) (authorKey evt) = none := by
  cases hc : n.closed with
  | true =>
    have hc2 : (StoreFollowList n evt).closed = true := by
      rw [(StoreFollowList_frame n evt).1, hc]
    simp [GetFollowListLocal, DB.View, hc2]
  | false =>
    have hc2 : (StoreFollowList n evt).closed = false := by
      rw [(StoreFollowList_frame n evt).1, hc]
    have hidx : (StoreFollowList n evt).FollowListEvtIdxMap.Get
        (ConvUint64ToBytes (authorKey evt)) = .ok (ConvInt64ToBytes evt.Created_at) := by
      rw [ConvUint64ToBytes_authorKey evt hlen hbytes, StoreFollowList_open n evt hc]
      exact BTree.Get_Put_self _ _ _
    have hmiss : getEventByTimestampBytes ser (StoreFollowList n evt)
        (ConvInt64ToBytes evt.Created_at) = none := by
      apply getEventByTimestampBytes_miss
      rw [(StoreFollowList_frame n evt).2.1, BigEndian_Uint64_ConvInt64ToBytes]
      exact hnone
    simp only [GetFollowListLocal, DB.View, hc2, hidx, hmiss]
    rfl

/-- C18, counterexample: the lookup right after the store call is not nil
whenever no Time Index member has the score `evt.created_at`.  An event
stamped `2 ^ 53 + 1` is held under the score `2 ^ 53`, so no member has the
score `2 ^ 53 + 1`, yet the lookup returns the event; and with one held event
stamped with the largest `int64` and a profile event stamped `-2 ^ 63`, the
pointer is read back as `2 ^ 63`, the score of the held event, which the
lookup returns. -/
theorem GetProfileLocal_after_StoreProfile_not_nil :
    (∀ m ∈ (StoreEvent refSerializer DB.empty eventOddAbove53).EventListTimeKey,
      m.Score ≠ eventOddAbove53.Created_at) ∧
    GetProfileLocal refSerializer
      (StoreProfile (StoreEvent refSerializer DB.empty eventOddAbove53) eventOddAbove53)
      (authorKey eventOddAbove53) = some eventOddAbove53 ∧
    GetFollowListLocal refSerializer
      (StoreFollowList (StoreEvent refSerializer DB.empty eventOddAbove53) eventOddAbove53)
      (authorKey eventOddAbove53) = some eventOddAbove53 ∧
    (∀ m ∈ (StoreEvent refSerializer DB.empty eventAtMaxInt64).EventListTimeKey,
      m.Score ≠ float64OfInt64 eventAtMinInt64.Created_at) ∧
    GetProfileLocal refSerializer
      (StoreProfile (StoreEvent refSerializer DB.empty eventAtMaxInt64) eventAtMinInt64)
      (authorKey eventAtMinInt64) = some eventAtMaxInt64 ∧
    GetFollowListLocal refSerializer
      (StoreFollowList (StoreEvent refSerializer DB.empty eventAtMaxInt64) eventAtMinInt64)
      (authorKey eventAtMinInt64) = some eventAtMaxInt64 := by
  decide

/-- C18, amended: `StoreProfile evt` and `StoreFollowList evt` leave the Time
Index, the Identity Index, the Ledger and the Resend Queue unchanged; and when
the Time Index holds no member with the score rebuilt from the written
pointer, the double of the 8 stored bytes read as an unsigned integer, which
is `float64(evt.created_at)` for a non-negative timestamp, `GetProfileLocal`
(respectively `GetFollowListLocal`) for the author of `evt` returns nil right
after the store call. -/
theorem StoreProfile_StoreFollowList_pointer_only (ser : Serializer) (n : DB) (evt : Np2pEvent)
    (hlen : 8 ≤ evt.Pubkey.length) (hbytes : ∀ x ∈ evt.Pubkey, x < 256)
    (hnone : ∀ m ∈ n.EventListTimeKey,
      m.Score ≠ float64OfUint64 (BigEndian_Uint64 (ConvInt64ToBytes evt.Created_at))) :
    ((StoreProfile n evt).EventListTimeKey = n.EventListTimeKey ∧
      (StoreProfile n evt).EventIdxMapIdKey = n.EventIdxMapIdKey ∧
      (StoreProfile n evt).EventListKeyListForLimit = n.EventListKeyListForLimit ∧
      (StoreProfile n evt).ReSendNeededEvtList = n.ReSendNeededEvtList) ∧
    ((StoreFollowList n evt).EventListTimeKey = n.EventListTimeKey ∧
      (StoreFollowList n evt).EventIdxMapIdKey = n.EventIdxMapIdKey ∧
      (StoreFollowList n evt).EventListKeyListForLimit = n.EventListKeyListForLimit ∧
      (StoreFollowList n evt).ReSendNeededEvtList = n.ReSendNeededEvtList) ∧
    GetProfileLocal ser (StoreProfile n evt) (authorKey evt) = none ∧
    GetFollowListLocal ser (StoreFollowList n evt) (authorKey evt) = none ∧
    (0 ≤ evt.Created_at → evt.Created_at < 2 ^ 63 →
      float64OfUint64 (BigEndian_Uint64 (ConvInt64ToBytes evt.Created_at))
        = float64OfInt64 evt.Created_at) := by
  have hnone2 : ∀ m ∈ n.EventListTimeKey,
      m.Score ≠ float64OfUint64 (uint64OfInt64 evt.Created_at) := by
    rw [← BigEndian_Uint64_ConvInt64ToBytes]
    exact hnone
  refine ⟨(StoreProfile_frame n evt).2, (StoreFollowList_frame n evt).2,
    GetProfileLocal_after_StoreProfile_miss ser n evt hlen hbytes hnone2,
    GetFollowListLocal_after_StoreFollowList_miss ser n evt hlen hbytes hnone2, ?_⟩
  intro h0 h63
  rw [BigEndian_Uint64_ConvInt64ToBytes, float64_int64_eq_uint64 _ h0 h63]

/-- C18, witness: a store holding the event stamped 5 and its resend record;
the profile event stamped `-1` of author 7 is not in the Time Index, its
pointer is read back as the score `2 ^ 64`, and both lookups return nil. -/
theorem StoreProfile_StoreFollowList_pointer_only_witness :
    8 ≤ eventBeforeEpoch.Pubkey.length ∧
    (∀ x ∈ eventBeforeEpoch.Pubkey, x < 256) ∧
    (∀ m ∈ (AddReSendNeededEvent refResendSerializer
        (StoreEvent refSerializer DB.empty eventAt5) [1, 2] eventAt5 false).EventListTimeKey,
      m.Score ≠ float64OfUint64
        (BigEndian_Uint64 (ConvInt64ToBytes eventBeforeEpoch.Created_at))) ∧
    float64OfUint64 (BigEndian_Uint64 (ConvInt64ToBytes eventBeforeEpoch.Created_at)) = 2 ^ 64 ∧
    (StoreProfile (AddReSendNeededEvent refResendSerializer
        (StoreEvent refSerializer DB.empty eventAt5) [1, 2] eventAt5 false)
        eventBeforeEpoch).ProfEvtIdxMap
      = [([0, 0, 0, 0, 0, 0, 0, 7], [255, 255, 255, 255, 255, 255, 255, 255])] ∧
    GetProfileLocal refSerializer
      (StoreProfile (AddReSendNeededEvent refResendSerializer
        (StoreEvent refSerializer DB.empty eventAt5) [1, 2] eventAt5 false) eventBeforeEpoch)
      (authorKey eventBeforeEpoch) = none ∧
    GetFollowListLocal refSerializer
      (StoreFollowList (AddReSendNeededEvent refResendSerializer
        (StoreEvent refSerializer DB.empty eventAt5) [1, 2] eventAt5 false) eventBeforeEpoch)
      (authorKey eventBeforeEpoch) = none :=
  ⟨by decide, by decide, by decide, by decide, by decide,
    (StoreProfile_StoreFollowList_pointer_only refSerializer
      (AddReSendNeededEvent refResendSerializer
        (StoreEvent refSerializer DB.empty eventAt5) [1, 2] eventAt5 false) eventBeforeEpoch
      (by decide) (by decide) (by decide)).2.2.1,
    (StoreProfile_StoreFollowList_pointer_only refSerializer
      (AddReSendNeededEvent refResendSerializer
        (StoreEvent refSerializer DB.empty eventAt5) [1, 2] eventAt5 false) eventBeforeEpoch
      (by decide) (by decide) (by decide)).2.2.2.1⟩

theorem float64OfInt64_nonpos (x : Int) (h : x < 0) : float64OfInt64 x ≤ 0 := by
  unfold float64OfInt64
  rw [if_neg (by omega)]
  have : (0 : Int) ≤ (roundBinade 11 1 (-x).toNat : Nat) := Int.natCast_nonneg _
  linarith

theorem float64OfUint64_of_negative (x : Int) (h : x < 0) (hmin : -2 ^ 63 ≤ x) :
    (2 : Int) ^ 63 ≤ float64OfUint64 (uint64OfInt64 x) := by
  have hge : 2 ^ 63 ≤ uint64OfInt64 x := by
    unfold uint64OfInt64
    omega
  have hr : 2 ^ 63 ≤ roundBinade 11 1 (uint64OfInt64 x) :=
    roundBinade_ge 11 1 _ (2 ^ 63) (by omega) ⟨2 ^ 52, by norm_num⟩ hge
  unfold float64OfUint64
  exact_mod_cast hr

/-- C19, counterexample: for the timestamp `-2 ^ 63` the rebuilt score is
`2 ^ 63`, which is the score of an event stamped with the largest `int64`: in
a store holding such an event, where no member has the score `-2 ^ 63`, the
lookup after `StoreEvent` returns that other event instead of no event. -/
theorem GetEventById_negative_returns_other :
    eventAtMinInt64.Created_at < 0 ∧
    (StoreEvent refSerializer DB.empty eventAtMaxInt64).EventListTimeKey.ScoreFree
      (float64OfInt64 eventAtMinInt64.Created_at) (refSerializer.Encode eventAtMinInt64) ∧
    GetEventById refSerializer
      (StoreEvent refSerializer (StoreEvent refSerializer DB.empty eventAtMaxInt64)
        eventAtMinInt64) eventAtMinInt64.Id = (some eventAtMaxInt64, true) := by
  decide

/-- C19, amended: on an open store, for an event `e` with
`0 ≤ e.created_at < 2 ^ 53` and no Time Index member other than the serialized
`e` at its score, the score written by `StoreEvent` equals the score rebuilt
from the stored bytes and `GetEventById e.id` after `StoreEvent e` returns
`(e, true)`; for an event `e'` with a negative timestamp the two scores
differ, and the lookup after `StoreEvent e'` returns no event (nil, with
found = true) when no Time Index member has the rebuilt score. -/
theorem GetEventById_rebuilt_score (ser : Serializer) (hser : ser.RoundTrip) (n : DB)
    (hopen : n.closed = false) (e e' : Np2pEvent)
    (h0 : 0 ≤ e.Created_at) (h53 : e.Created_at < 2 ^ 53)
    (hfree : n.EventListTimeKey.ScoreFree (float64OfInt64 e.Created_at) (ser.Encode e))
    (hneg : e'.Created_at < 0) (hmin : -2 ^ 63 ≤ e'.Created_at)
    (hnone : ∀ m ∈ n.EventListTimeKey,
      m.Score ≠ float64OfUint64 (BigEndian_Uint64 (ConvInt64ToBytes e'.Created_at))) :
    (float64OfUint64 (BigEndian_Uint64 (ConvInt64ToBytes e.Created_at))
        = float64OfInt64 e.Created_at ∧
      GetEventById ser (StoreEvent ser n e) e.Id = (some e, true)) ∧
    (float64OfUint64 (BigEndian_Uint64 (ConvInt64ToBytes e'.Created_at))
        ≠ float64OfInt64 e'.Created_at ∧
      GetEventById ser (StoreEvent ser n e') e'.Id = (none, true)) := by
  have h63 : e.Created_at < 2 ^ 63 := by omega
  have hscore : float64OfUint64 (BigEndian_Uint64 (ConvInt64ToBytes e.Created_at))
      = float64OfInt64 e.Created_at := by
    rw [BigEndian_Uint64_ConvInt64ToBytes, float64_int64_eq_uint64 _ h0 h63]
  have hdiff : float64OfUint64 (BigEndian_Uint64 (ConvInt64ToBytes e'.Created_at))
      ≠ float64OfInt64 e'.Created_at := by
    rw [BigEndian_Uint64_ConvInt64ToBytes]
    have h1 := float64OfUint64_of_negative _ hneg hmin
    have h2 := float64OfInt64_nonpos _ hneg
    intro heq
    rw [heq] at h1
    have : (0 : Int) < 2 ^ 63 := by norm_num
    linarith
  refine ⟨⟨hscore, ?_⟩, hdiff, ?_⟩
  · -- the non-negative case: the lookup finds the event
    have hget : getEventByTimestampBytes ser (StoreEvent ser n e)
        (ConvInt64ToBytes e.Created_at) = some e := by
      apply getEventByTimestampBytes_hit ser hser _ _ e _ hscore
      · rw [StoreEvent_open ser n e hopen]
        exact SortedSet.mem_ZAdd_self _ _ _
      · rw [StoreEvent_open ser n e hopen]
        exact SortedSet.ScoreFree_ZAdd _ _ _ hfree
      · rw [StoreEvent_open ser n e hopen]; exact hopen
    have hcl : (StoreEvent ser n e).closed = false := by
      rw [StoreEvent_open ser n e hopen]; exact hopen
    have hidx : (StoreEvent ser n e).EventIdxMapIdKey.Get e.Id
        = .ok (ConvInt64ToBytes e.Created_at) := by
      rw [StoreEvent_open ser n e hopen]
      exact BTree.Get_Put_self _ _ _
    rw [GetEventById_hit ser _ hcl _ _ hidx, hget]
  · -- the negative case: the lookup misses
    have hcl : (StoreEvent ser n e').closed = false := by
      rw [StoreEvent_open ser n e' hopen]; exact hopen
    have hidx : (StoreEvent ser n e').EventIdxMapIdKey.Get e'.Id
        = .ok (ConvInt64ToBytes e'.Created_at) := by
      rw [StoreEvent_open ser n e' hopen]
      exact BTree.Get_Put_self _ _ _
    apply GetEventById_drift ser _ hcl _ _ hidx
    intro m hm
    rw [StoreEvent_open ser n e' hopen] at hm
    rcases SortedSet.mem_ZAdd_cases _ _ _ m hm with h1 | h1
    · rw [h1]
      exact fun heq => hdiff heq.symm
    · exact hnone m h1

/-- C19, witness: a store holding the event stamped 5; the events stamped 20
and `-1` are stored and looked up. -/
theorem GetEventById_rebuilt_score_witness :
    refSerializer.RoundTrip ∧
    (StoreEvent refSerializer DB.empty eventAt5).closed = false ∧
    (0 ≤ eventAt20.Created_at ∧ eventAt20.Created_at < 2 ^ 53) ∧
    (StoreEvent refSerializer DB.empty eventAt5).EventListTimeKey.ScoreFree
      (float64OfInt64 eventAt20.Created_at) (refSerializer.Encode eventAt20) ∧
    (eventBeforeEpoch.Created_at < 0 ∧ -2 ^ 63 ≤ eventBeforeEpoch.Created_at) ∧
    (∀ m ∈ (StoreEvent refSerializer DB.empty eventAt5).EventListTimeKey,
      m.Score ≠ float64OfUint64
        (BigEndian_Uint64 (ConvInt64ToBytes eventBeforeEpoch.Created_at))) ∧
    GetEventById refSerializer
      (StoreEvent refSerializer (StoreEvent refSerializer DB.empty eventAt5) eventAt20)
      eventAt20.Id = (some eventAt20, true) ∧
    GetEventById refSerializer
      (StoreEvent refSerializer (StoreEvent refSerializer DB.empty eventAt5) eventBeforeEpoch)
      eventBeforeEpoch.Id = (none, true) :=
  ⟨refSerializer_roundTrip, by decide, by decide, by decide, by decide, by decide,
    (GetEventById_rebuilt_score refSerializer refSerializer_roundTrip
      (StoreEvent refSerializer DB.empty eventAt5) (by decide) eventAt20 eventBeforeEpoch
      (by decide) (by decide) (by decide) (by decide) (by decide) (by decide)).1.2,
    (GetEventById_rebuilt_score refSerializer refSerializer_roundTrip
      (StoreEvent refSerializer DB.empty eventAt5) (by decide) eventAt20 eventBeforeEpoch
      (by decide) (by decide) (by decide) (by decide) (by decide) (by decide)).2.2⟩

end Core
